import Mathlib

/-!
Verification development for the LineMovement odds-aggregation repository.

The definitions below are shallow embeddings of the TypeScript sources:

* `src/unnamed/part_000` (`DatabaseStorage`): the persistence layer
  (`upsertGame`, `upsertBookmaker`, `upsertOdds`, `createLineMovement`).
* `src/server/routes.ts`: the SportsDataIO sync route (`POST /api/odds/sync`,
  second revision of the file), the ESPN sync route (`POST /api/espn/nfl/sync`),
  the best-odds summary reduce, and the combine merge of `GET /api/odds/unified`.
* `src/server/services/sportsDataIoApi.ts`: `fetchWithRetry`,
  `convertAmericanToDecimal`, `transformOddsData`.
* `src/unnamed/part_003`: `fetchJsonWith429Retry` and the SportsGameOdds service.
* `src/server/services/oddsApi.ts`: `assertApiKey` and the service constructor.
* `src/server/services/espnOdds.ts`: the direct-field quote extraction of
  `getNflOddsToday` and `transformEspnToDbFormat`.
* `src/unnamed/part_005`: `pickBestAmerican`.

Timestamps are modelled as integers supplied explicitly (`new Date()` at sync
time becomes a parameter `t`), and JavaScript date parsing is an explicit
function parameter `parse : String → Option Int` (`none` models an invalid
date).  Numeric values travelling through `String(x)` / `Number(x)` /
postgres `decimal` columns are modelled as `Option ℚ`, `none` standing for a
non-numeric (NULL-able) value.
-/

/-- JavaScript truthiness of a possibly absent string: `undefined`, `null`
and the empty string are falsy. -/
def strTruthy : Option String → Bool
  | some s => s ≠ ""
  | none => false

/-- JavaScript truthiness of a possibly absent number: `undefined`, `null`
and `0` are falsy (`NaN` is expressible upstream but never enters this model
as a rational). -/
def truthyQ : Option ℚ → Bool
  | some q => q ≠ 0
  | none => false

/-- JavaScript `a || d` for a possibly absent string with a string default. -/
def jsOrStr (a : Option String) (d : String) : String :=
  match a with
  | some s => if s = "" then d else s
  | none => d

/-- JavaScript `a || b` where both sides are possibly absent strings. -/
def jsOrOpt (a b : Option String) : Option String :=
  if strTruthy a then a else b

/-- JavaScript `toLowerCase()`, written over the character list so that
concrete instances reduce inside the kernel. -/
def strLower (s : String) : String := ⟨s.data.map Char.toLower⟩

/-- Read an environment variable; `none` models an unset variable. -/
def EnvMap : Type := String → Option String

/-- JavaScript `process.env.K || d`: an unset or empty variable falls back to
the default. -/
def envOr (env : EnvMap) (k d : String) : String :=
  jsOrStr (env k) d

/-! ## The persisted store (shared/schema.ts + part_000 DatabaseStorage) -/

/-- The conflict target of `upsertOdds`: `(gameId, bookmakerId, market,
outcomeType)` (part_000 lines 174-187). -/
structure OddsKey where
  gameId : String
  bookmakerId : String
  market : String
  outcomeType : String
deriving DecidableEq, Repr

/-- A persisted `odds` row (schema.ts lines 69-78).  `id` is the
`gen_random_uuid()` primary key, modelled as a counter value. -/
structure OddsRow where
  id : Nat
  key : OddsKey
  price : Option ℚ
  point : Option ℚ
  lastUpdate : Int
deriving DecidableEq, Repr

/-- A persisted `games` row (schema.ts lines 49-59). `commenceTime` is
`none` when an invalid JavaScript `Date` was stored. -/
structure GameRow where
  id : String
  sportId : String
  homeTeam : String
  awayTeam : String
  commenceTime : Option Int
  completed : Bool
  homeScore : Option Int
  awayScore : Option Int
  lastUpdated : Int
deriving DecidableEq, Repr

/-- A persisted `bookmakers` row (schema.ts lines 62-66). -/
structure BookRow where
  id : String
  title : String
  lastUpdate : Option Int
deriving DecidableEq, Repr

/-- A persisted `line_movements` row (schema.ts lines 81-89). -/
structure MovementRow where
  id : Nat
  gameId : String
  market : String
  oldValue : Option ℚ
  newValue : Option ℚ
  movement : Option ℚ
  timestamp : Int
deriving DecidableEq, Repr

/-- The database state touched by the sync pipeline. `nextId` feeds the
`gen_random_uuid()` defaults of the `odds` and `line_movements` tables. -/
structure Store where
  games : List GameRow
  books : List BookRow
  oddsRows : List OddsRow
  movements : List MovementRow
  nextId : Nat
deriving DecidableEq, Repr

/-- The empty database. -/
def emptyStore : Store := ⟨[], [], [], [], 0⟩

/-- Input of `storage.upsertGame`.  The score fields are doubly optional:
the outer `none` models a field that is absent from the update object (so an
`onConflictDoUpdate` keeps the previously stored value, and a fresh insert
stores NULL), mirroring how the ESPN sync route omits the scores while the
SportsDataIO route provides them. -/
structure GameData where
  id : String
  sportId : String
  homeTeam : String
  awayTeam : String
  commenceTime : Option Int
  completed : Bool
  homeScore : Option (Option Int)
  awayScore : Option (Option Int)
deriving DecidableEq, Repr

/-- Input of `storage.upsertBookmaker`.  `lastUpdate` is `none` when the
caller passes `new Date()` (sync time), and `some v` when it passes a parsed
upstream timestamp (`v = none` models an invalid date object). -/
structure BookData where
  id : String
  title : String
  lastUpdate : Option (Option Int)
deriving DecidableEq, Repr

/-- Row produced by inserting `GameData` (insert path of `upsertGame`):
absent score fields become NULL and `lastUpdated` defaults to now. -/
def gameInsertRow (t : Int) (g : GameData) : GameRow :=
  { id := g.id, sportId := g.sportId, homeTeam := g.homeTeam,
    awayTeam := g.awayTeam, commenceTime := g.commenceTime,
    completed := g.completed, homeScore := g.homeScore.getD none,
    awayScore := g.awayScore.getD none, lastUpdated := t }

/-- Row produced by the conflict branch of `upsertGame`
(`set: { ...game, lastUpdated: new Date() }`): provided fields overwrite the
previous row, absent fields keep their stored value. -/
def gameMergeRow (t : Int) (g : GameData) (prev : GameRow) : GameRow :=
  { id := g.id, sportId := g.sportId, homeTeam := g.homeTeam,
    awayTeam := g.awayTeam, commenceTime := g.commenceTime,
    completed := g.completed, homeScore := g.homeScore.getD prev.homeScore,
    awayScore := g.awayScore.getD prev.awayScore, lastUpdated := t }

/-- `DatabaseStorage.upsertGame` (part_000 lines 128-141): insert keyed by
`games.id`, updating in place on conflict. -/
def upsertGameRows (t : Int) (g : GameData) : List GameRow → List GameRow
  | [] => [gameInsertRow t g]
  | r :: rs =>
      if r.id = g.id then gameMergeRow t g r :: rs
      else r :: upsertGameRows t g rs

/-- Row written by `upsertBookmaker` for the given sync time. -/
def bookRowOf (t : Int) (b : BookData) : BookRow :=
  { id := b.id, title := b.title, lastUpdate := b.lastUpdate.getD (some t) }

/-- `DatabaseStorage.upsertBookmaker` (part_000 lines 153-163): insert keyed
by `bookmakers.id`, overwriting on conflict. -/
def upsertBookRows (t : Int) (b : BookData) : List BookRow → List BookRow
  | [] => [bookRowOf t b]
  | r :: rs =>
      if r.id = b.id then bookRowOf t b :: rs
      else r :: upsertBookRows t b rs

/-- First stored odds row with the given conflict key. -/
def oddsLookup (k : OddsKey) : List OddsRow → Option OddsRow
  | [] => none
  | r :: rs => if r.key = k then some r else oddsLookup k rs

/-- First stored game row with the given id. -/
def gameLookup (i : String) : List GameRow → Option GameRow
  | [] => none
  | r :: rs => if r.id = i then some r else gameLookup i rs

/-- First stored bookmaker row with the given id. -/
def bookLookup (i : String) : List BookRow → Option BookRow
  | [] => none
  | r :: rs => if r.id = i then some r else bookLookup i rs

/-- Conflict branch of `upsertOdds` (part_000 lines 174-187): the row with
the matching key is rewritten in place with the new values and
`lastUpdate: new Date()`; its primary key survives. -/
def updateOddsRows (t : Int) (k : OddsKey) (price point : Option ℚ) :
    List OddsRow → List OddsRow
  | [] => []
  | r :: rs =>
      if r.key = k then
        { id := r.id, key := k, price := price, point := point,
          lastUpdate := t } :: rs
      else r :: updateOddsRows t k price point rs

/-- `DatabaseStorage.upsertOdds` on the whole store: insert a new row (with a
fresh primary key and `lastUpdate` defaulting to now) or update the existing
row for the conflict key in place. -/
def storeUpsertOdds (t : Int) (k : OddsKey) (price point : Option ℚ)
    (s : Store) : Store :=
  match oddsLookup k s.oddsRows with
  | some _ =>
      { s with oddsRows := updateOddsRows t k price point s.oddsRows }
  | none =>
      { s with
        oddsRows := s.oddsRows ++
          [{ id := s.nextId, key := k, price := price, point := point,
             lastUpdate := t }],
        nextId := s.nextId + 1 }

/-! ## Sync operations

The sync routes in routes.ts reduce to a sequence of storage calls; the
nested `for` loops over events, bookmakers, markets and outcomes emit the
operations in order and the store folds over them. -/

/-- One storage call made by a sync loop. `skipEvent` records the
`gamesSkipped++` branch of the SportsDataIO route. -/
inductive SyncOp where
  | game (g : GameData)
  | book (b : BookData)
  | quote (k : OddsKey) (price point : Option ℚ)
  | skipEvent
deriving DecidableEq, Repr

/-- Modelled from the spec: the persistence-sync diffing step is not present
in `src/` (no code there calls `DatabaseStorage.createLineMovement`; only the
storage primitive, its schema and its UI consumers exist).  Per spec section
4.3 steps 3-4, before upserting an odds value the previous stored `point`
for the exact `(gameId, bookmakerId, market, outcomeType)` key is read, and
if a previous point existed and differs from the new one a `LineMovement`
row is appended capturing old value, new value and the signed delta
`new - old`.  `createLineMovement` itself (part_000 lines 221-227) is a
plain append. -/
def applyQuote (t : Int) (k : OddsKey) (price point : Option ℚ)
    (s : Store) : Store :=
  let prev := oddsLookup k s.oddsRows
  let s1 := storeUpsertOdds t k price point s
  match prev with
  | none => s1
  | some prevRow =>
      match prevRow.point, point with
      | some p1, some p2 =>
          if p2 ≠ p1 then
            { s1 with
              movements := s1.movements ++
                [{ id := s1.nextId, gameId := k.gameId, market := k.market,
                   oldValue := some p1, newValue := some p2,
                   movement := some (p2 - p1), timestamp := t }],
              nextId := s1.nextId + 1 }
          else s1
      | _, _ => s1

/-- Apply one sync operation to the store at sync time `t`. -/
def applyOp (t : Int) (s : Store) : SyncOp → Store
  | .game g => { s with games := upsertGameRows t g s.games }
  | .book b => { s with books := upsertBookRows t b s.books }
  | .quote k price point => applyQuote t k price point s
  | .skipEvent => s

/-- Fold a sequence of sync operations over the store. -/
def applyOps (t : Int) (ops : List SyncOp) (s : Store) : Store :=
  ops.foldl (applyOp t) s

/-! ## Normalized provider events (the `any[]` consumed by the sync routes) -/

/-- One outcome of one market as it reaches a sync route.  `price` models
the numeric value that survives `String(outcome.price)` on the way into the
`decimal` column (`none` for a non-numeric value); `point` likewise. -/
structure RawOutcome where
  name : Option String
  price : Option ℚ
  point : Option ℚ
deriving DecidableEq, Repr

/-- One market offered by one bookmaker. -/
structure RawMarket where
  key : String
  last_update : Option String
  outcomes : List RawOutcome
deriving DecidableEq, Repr

/-- One bookmaker block of a normalized event. -/
structure RawBookmaker where
  key : String
  title : String
  last_update : Option String
  markets : List RawMarket
deriving DecidableEq, Repr

/-- One normalized event as handed to a sync route. -/
structure RawEvent where
  id : String
  sport_key : String
  home_team : Option String
  away_team : Option String
  commence_time : Option String
  completed : Bool
  home_score : Option Int
  away_score : Option Int
  bookmakers : List RawBookmaker
deriving DecidableEq, Repr

/-! ## Outcome classification -/

/-- Outcome classification of `POST /api/odds/sync` (routes.ts lines
783-802, second revision): for `h2h`/`spreads` the lowercased name is
checked against the literal `home`/`away`, substring containment of the
literal, equality with the lowercased team name, and substring containment
of the (nonempty) team name — home checked before away; for `totals` the
name must be exactly `over` or `under`; anything else yields no
classification and the outcome is skipped. -/
def classifyOutcomeSync (marketKey : String) (name homeTeam awayTeam : Option String) :
    Option String :=
  if marketKey = "h2h" ∨ marketKey = "spreads" then
    let n := strLower (jsOrStr name "")
    let home := strLower (jsOrStr homeTeam "")
    let away := strLower (jsOrStr awayTeam "")
    let isHome := n = "home" ∨ "home".toList.IsInfix n.toList ∨ n = home ∨
      (home ≠ "" ∧ home.toList.IsInfix n.toList)
    let isAway := n = "away" ∨ "away".toList.IsInfix n.toList ∨ n = away ∨
      (away ≠ "" ∧ away.toList.IsInfix n.toList)
    if isHome then some "home" else if isAway then some "away" else none
  else if marketKey = "totals" then
    let n := strLower (jsOrStr name "")
    if n = "over" then some "over"
    else if n = "under" then some "under"
    else none
  else none

/-- Outcome classification of `POST /api/espn/nfl/sync` (routes.ts lines
951-959): for `h2h` and `spreads` any name equal to the home team is `home`
and **everything else is `away`**; for `totals` the name `Over` (exact case)
is `over` and everything else is `under`; other market keys are skipped. -/
def classifyOutcomeEspn (marketKey : String) (name home_team : Option String) :
    Option String :=
  if marketKey = "h2h" then
    some (if name = home_team then "home" else "away")
  else if marketKey = "spreads" then
    some (if name = home_team then "home" else "away")
  else if marketKey = "totals" then
    some (if name = some "Over" then "over" else "under")
  else none

/-! ## The SportsDataIO sync route (`POST /api/odds/sync`, routes.ts 733-831) -/

/-- Quote operations contributed by one market of one bookmaker: each
outcome that classifies produces an `upsertOdds` call with
`price: String(outcome.price)` and `point: outcome.point != null ?
String(outcome.point) : null`. -/
def opsOfMarketSync (ev : RawEvent) (bmKey : String) (m : RawMarket) :
    List SyncOp :=
  m.outcomes.filterMap fun o =>
    (classifyOutcomeSync m.key o.name ev.home_team ev.away_team).map fun ty =>
      .quote ⟨ev.id, bmKey, m.key, ty⟩ o.price o.point

/-- Operations contributed by one bookmaker block (routes.ts 773-815): the
`last_update` timestamp is parsed when present (`new Date()` otherwise); an
unparseable timestamp skips the whole bookmaker. -/
def opsOfBookSync (parse : String → Option Int) (ev : RawEvent)
    (bm : RawBookmaker) : List SyncOp :=
  if strTruthy bm.last_update then
    match (jsOrStr bm.last_update "") |> parse with
    | none => []
    | some tb =>
        .book ⟨bm.key, bm.title, some (some tb)⟩ ::
          (bm.markets.map (opsOfMarketSync ev bm.key)).flatten
  else
    .book ⟨bm.key, bm.title, none⟩ ::
      (bm.markets.map (opsOfMarketSync ev bm.key)).flatten

/-- Operations of one event of the SportsDataIO sync route (routes.ts
747-816): the hard guard counts an event with a missing/empty team or
commence time, or an unparseable commence time, as skipped; otherwise the
game is upserted (scores provided, `?? null`) and the bookmakers are
processed. -/
def opsOfEventSync (parse : String → Option Int) (ev : RawEvent) :
    List SyncOp :=
  if strTruthy ev.home_team ∧ strTruthy ev.away_team ∧
      strTruthy ev.commence_time then
    match (jsOrStr ev.commence_time "") |> parse with
    | none => [.skipEvent]
    | some tc =>
        .game ⟨ev.id, ev.sport_key, jsOrStr ev.home_team "",
               jsOrStr ev.away_team "", some tc, ev.completed,
               some ev.home_score, some ev.away_score⟩ ::
          (ev.bookmakers.map (opsOfBookSync parse ev)).flatten
  else [.skipEvent]

/-- All storage operations of a SportsDataIO sync over a batch. -/
def sdioOps (parse : String → Option Int) (evs : List RawEvent) : List SyncOp :=
  (evs.map (opsOfEventSync parse)).flatten

/-- Result counters of `POST /api/odds/sync`. -/
structure SdioResult where
  gamesUpdated : Nat
  oddsUpdated : Nat
  gamesSkipped : Nat
  store : Store
deriving DecidableEq, Repr

/-- Count the `upsertGame` calls in an operation sequence. -/
def countGames (ops : List SyncOp) : Nat :=
  (ops.filter fun o => match o with | .game _ => true | _ => false).length

/-- Count the `upsertOdds` calls in an operation sequence. -/
def countQuotes (ops : List SyncOp) : Nat :=
  (ops.filter fun o => match o with | .quote _ _ _ => true | _ => false).length

/-- Count the skipped events in an operation sequence. -/
def countSkips (ops : List SyncOp) : Nat :=
  (ops.filter fun o => match o with | .skipEvent => true | _ => false).length

/-- The SportsDataIO sync route over a batch of normalized events:
counters plus the resulting store. -/
def syncSdio (parse : String → Option Int) (evs : List RawEvent) (t : Int)
    (s : Store) : SdioResult :=
  let ops := sdioOps parse evs
  { gamesUpdated := countGames ops, oddsUpdated := countQuotes ops,
    gamesSkipped := countSkips ops, store := applyOps t ops s }

/-! ## The ESPN sync route (`POST /api/espn/nfl/sync`, routes.ts 910-995) -/

/-- Operations of one event of the ESPN sync route (routes.ts 925-975):
events missing a team are silently dropped (no counter); the game is
upserted with `sportId: "NFL"`, `completed: false`, no scores, and
`new Date(event.commence_time)` stored **without** a validity check; every
bookmaker is upserted with `new Date(bookmaker.last_update)` unchecked;
outcomes use `classifyOutcomeEspn` and `point: outcome.point ? ... : null`
(a zero point becomes NULL). -/
def opsOfEventEspn (parse : String → Option Int) (ev : RawEvent) :
    List SyncOp :=
  if strTruthy ev.home_team ∧ strTruthy ev.away_team then
    .game ⟨ev.id, "NFL", jsOrStr ev.home_team "", jsOrStr ev.away_team "",
           ev.commence_time.bind parse, false, none, none⟩ ::
      (ev.bookmakers.map fun bm =>
        .book ⟨bm.key, bm.title, some (bm.last_update.bind parse)⟩ ::
          (bm.markets.map fun m =>
            m.outcomes.filterMap fun o =>
              (classifyOutcomeEspn m.key o.name ev.home_team).map fun ty =>
                SyncOp.quote ⟨ev.id, bm.key, m.key, ty⟩ o.price
                  (if truthyQ o.point then o.point else none)).flatten).flatten
  else []

/-- All storage operations of an ESPN sync over a batch. -/
def espnOps (parse : String → Option Int) (evs : List RawEvent) : List SyncOp :=
  (evs.map (opsOfEventEspn parse)).flatten

/-- Result of `POST /api/espn/nfl/sync`: note there is no skip counter. -/
structure EspnResult where
  gamesUpdated : Nat
  oddsUpdated : Nat
  store : Store
deriving DecidableEq, Repr

/-- The ESPN sync route over a batch of normalized events. -/
def syncEspn (parse : String → Option Int) (evs : List RawEvent) (t : Int)
    (s : Store) : EspnResult :=
  let ops := espnOps parse evs
  { gamesUpdated := countGames ops, oddsUpdated := countQuotes ops,
    store := applyOps t ops s }

/-! ## ESPN adapter quotes (espnOdds.ts) and `transformEspnToDbFormat` -/

/-- The market of an `OddsQuote` in espnOdds.ts. -/
inductive EMarket where
  | moneyline | spreads | totals
deriving DecidableEq, Repr

/-- The team tag of an `OddsQuote`; for totals `home` encodes Over and
`away` encodes Under (espnOdds.ts lines 210 and 218). -/
inductive ETeam where
  | home | away
deriving DecidableEq, Repr

/-- An `OddsQuote` of espnOdds.ts.  Every quote pushed by
`getNflOddsToday` carries a team tag, so `team` is total here. -/
structure EspnQuote where
  book : String
  market : EMarket
  team : ETeam
  price : Option ℚ
  point : Option ℚ
  updated : String
deriving DecidableEq, Repr

/-- One `GameOdds` value of espnOdds.ts, restricted to the fields
`transformEspnToDbFormat` reads (the precomputed `best` block is unused by
the transform and omitted). -/
structure EspnGame where
  homeTeam : String
  awayTeam : String
  commenceTime : String
  quotes : List EspnQuote
deriving DecidableEq, Repr

/-- Append a quote to its bookmaker bucket, keeping first-seen bucket
order (the JavaScript `Map` iteration order). -/
def bucketAdd (q : EspnQuote) : List (String × List EspnQuote) →
    List (String × List EspnQuote)
  | [] => [(q.book, [q])]
  | (b, qs) :: rest =>
      if b = q.book then (b, qs ++ [q]) :: rest
      else (b, qs) :: bucketAdd q rest

/-- Group quotes by bookmaker name (espnOdds.ts lines 335-342). -/
def groupByBook (qs : List EspnQuote) : List (String × List EspnQuote) :=
  qs.foldl (fun acc q => bucketAdd q acc) []

/-- The canonical market key emitted by the transform:
`marketKey === "moneyline" ? "h2h" : marketKey`. -/
def emarketKey : EMarket → String
  | .moneyline => "h2h"
  | .spreads => "spreads"
  | .totals => "totals"

/-- One outcome of `transformEspnToDbFormat` (espnOdds.ts lines 361-374):
totals rename the pseudo-teams to `Over`/`Under`, the other markets use the
real team names; `price: q.price || 0` and `point: q.point || null`. -/
def espnOutcome (mk : EMarket) (data : EspnGame) (q : EspnQuote) : RawOutcome :=
  { name := some (match mk with
      | .totals => if q.team = .home then "Over" else "Under"
      | _ => if q.team = .home then data.homeTeam else data.awayTeam),
    price := some (q.price.getD 0),
    point := if truthyQ q.point then q.point else none }

/-- One market of the transform: skipped when its quote group is empty,
otherwise stamped with the first quote's `updated`. -/
def espnMarketEntry (mk : EMarket) (data : EspnGame) (mqs : List EspnQuote) :
    Option RawMarket :=
  match mqs with
  | [] => none
  | q0 :: _ =>
      some { key := emarketKey mk, last_update := some q0.updated,
             outcomes := mqs.map (espnOutcome mk data) }

/-- The three market groups of one bookmaker, in the object-literal
iteration order moneyline, spreads, totals. -/
def espnMarketsFor (data : EspnGame) (bqs : List EspnQuote) : List RawMarket :=
  ([(EMarket.moneyline, bqs.filter fun q => q.market = .moneyline),
    (EMarket.spreads, bqs.filter fun q => q.market = .spreads),
    (EMarket.totals, bqs.filter fun q => q.market = .totals)]).filterMap
    fun p => espnMarketEntry p.1 data p.2

/-- Helper for `collapseWs`: the flag records whether we are inside a run
of whitespace that has already emitted its underscore. -/
def collapseWsAux : Bool → List Char → List Char
  | _, [] => []
  | inRun, c :: cs =>
      if c.isWhitespace then
        if inRun then collapseWsAux true cs
        else '_' :: collapseWsAux true cs
      else c :: collapseWsAux false cs

/-- Collapse runs of whitespace into a single underscore, mirroring
`replace(/\s+/g, "_")`. -/
def collapseWs (cs : List Char) : List Char := collapseWsAux false cs

/-- The bookmaker key of the transform:
`bookName.toLowerCase().replace(/\s+/g, "_")`. -/
def bookKeyOf (bname : String) : String :=
  ⟨collapseWs (strLower bname).data⟩

/-- One bookmaker of the transform (espnOdds.ts lines 347-391): skipped
entirely when it has no markets. -/
def espnBookEntry (data : EspnGame) (p : String × List EspnQuote) :
    Option RawBookmaker :=
  match p.2 with
  | [] => none
  | q0 :: _ =>
      let ms := espnMarketsFor data p.2
      if ms.isEmpty then none
      else some { key := bookKeyOf p.1, title := p.1,
                  last_update := some q0.updated, markets := ms }

/-- `transformEspnToDbFormat` (espnOdds.ts lines 330-406) over the entry
list of the `OddsResult` record, keyed by ESPN event id. -/
def transformEspnToDbFormat (entries : List (String × EspnGame))
    (sport : String) : List RawEvent :=
  entries.map fun p =>
    { id := "espn_" ++ p.1, sport_key := sport,
      home_team := some p.2.homeTeam, away_team := some p.2.awayTeam,
      commence_time := some p.2.commenceTime, completed := false,
      home_score := none, away_score := none,
      bookmakers := (groupByBook p.2.quotes).filterMap (espnBookEntry p.2) }

/-! ## SportsDataIO adapter (sportsDataIoApi.ts, second revision) -/

/-- `convertAmericanToDecimal` (sportsDataIoApi.ts lines 701-705).
In JavaScript an input of `0` yields `Infinity`; every call site guards the
argument behind a truthiness or non-null check, and with Lean's
`100 / 0 = 0` convention the zero case is never relied upon. -/
def convertAmericanToDecimal (a : ℚ) : ℚ :=
  if a > 0 then a / 100 + 1 else 100 / |a| + 1

/-- One entry of a game's `PregameOdds` array.  Numeric fields are `none`
for `null`/`undefined`. -/
structure PregameOdd where
  Sportsbook : Option String
  SportsbookName : Option String
  Created : Option String
  HomeMoneyLine : Option ℚ
  AwayMoneyLine : Option ℚ
  PointSpread : Option ℚ
  HomePointSpreadPayout : Option ℚ
  AwayPointSpreadPayout : Option ℚ
  OverPayout : Option ℚ
  UnderPayout : Option ℚ
  OverUnder : Option ℚ
deriving DecidableEq, Repr

/-- The `last_update` stamp of a transformed market or bookmaker:
`odd.Created || new Date().toISOString()`; `none` stands for the
ingestion-time ISO string (which parses back to the sync instant). -/
def createdStamp (odd : PregameOdd) : Option String :=
  if strTruthy odd.Created then odd.Created else none

/-- The markets contributed by one `PregameOdds` entry (sportsDataIoApi.ts
lines 601-679): moneyline and spread payouts and the over/under payouts are
all converted with `convertAmericanToDecimal` before being emitted as the
outcome `price`. -/
def marketsOfOdd (homeName awayName : String) (odd : PregameOdd) :
    List RawMarket :=
  let ml :=
    if truthyQ odd.HomeMoneyLine ∨ truthyQ odd.AwayMoneyLine then
      let outs :=
        (if truthyQ odd.HomeMoneyLine then
          [({ name := some homeName,
              price := some (convertAmericanToDecimal (odd.HomeMoneyLine.getD 0)),
              point := none } : RawOutcome)] else []) ++
        (if truthyQ odd.AwayMoneyLine then
          [({ name := some awayName,
              price := some (convertAmericanToDecimal (odd.AwayMoneyLine.getD 0)),
              point := none } : RawOutcome)] else [])
      if outs.isEmpty then []
      else [{ key := "h2h", last_update := createdStamp odd, outcomes := outs }]
    else []
  let sp :=
    if odd.PointSpread ≠ none ∨ odd.HomePointSpreadPayout ≠ none ∨
        odd.AwayPointSpreadPayout ≠ none then
      let psVal := odd.PointSpread.getD 0
      let outs :=
        (if odd.HomePointSpreadPayout ≠ none ∧ odd.PointSpread ≠ none then
          [({ name := some homeName,
              price := some (convertAmericanToDecimal
                (odd.HomePointSpreadPayout.getD 0)),
              point := some (-|psVal|) } : RawOutcome)] else []) ++
        (if odd.AwayPointSpreadPayout ≠ none ∧ odd.PointSpread ≠ none then
          [({ name := some awayName,
              price := some (convertAmericanToDecimal
                (odd.AwayPointSpreadPayout.getD 0)),
              point := some |psVal| } : RawOutcome)] else [])
      if outs.isEmpty then []
      else [{ key := "spreads", last_update := createdStamp odd, outcomes := outs }]
    else []
  let tot :=
    if odd.OverPayout ≠ none ∨ odd.UnderPayout ≠ none then
      let outs :=
        (if odd.OverPayout ≠ none ∧ odd.OverUnder ≠ none then
          [({ name := some "Over",
              price := some (convertAmericanToDecimal (odd.OverPayout.getD 0)),
              point := odd.OverUnder } : RawOutcome)] else []) ++
        (if odd.UnderPayout ≠ none ∧ odd.OverUnder ≠ none then
          [({ name := some "Under",
              price := some (convertAmericanToDecimal (odd.UnderPayout.getD 0)),
              point := odd.OverUnder } : RawOutcome)] else [])
      if outs.isEmpty then []
      else [{ key := "totals", last_update := createdStamp odd, outcomes := outs }]
    else []
  ml ++ sp ++ tot

/-- Append freshly built markets to an existing bookmaker bucket. -/
def appendMarkets (k : String) (ms : List RawMarket) :
    List RawBookmaker → List RawBookmaker
  | [] => []
  | bm :: rest =>
      if bm.key = k then { bm with markets := bm.markets ++ ms } :: rest
      else bm :: appendMarkets k ms rest

/-- One step of the `PregameOdds.forEach` fold over the bookmaker map
(sportsDataIoApi.ts lines 589-680): buckets are keyed by
`odd.Sportsbook || "unknown"` in first-seen order. -/
def pregameStep (homeName awayName : String) (acc : List RawBookmaker)
    (odd : PregameOdd) : List RawBookmaker :=
  let key := jsOrStr odd.Sportsbook "unknown"
  let ms := marketsOfOdd homeName awayName odd
  if acc.any fun bm => bm.key == key then appendMarkets key ms acc
  else acc ++ [{ key := key, title := jsOrStr odd.SportsbookName key,
                 last_update := createdStamp odd, markets := ms }]

/-- One upstream game object as consumed by `transformOddsData`.  `GameID`
is modelled in its stringified form. -/
structure SdioGame where
  GameID : Option String
  DateTime : Option String
  Day : Option String
  HomeTeam : Option String
  AwayTeam : Option String
  HomeTeamName : Option String
  AwayTeamName : Option String
  Status : Option String
  IsClosed : Option Bool
  HomeScore : Option Int
  AwayScore : Option Int
  PregameOdds : List PregameOdd
deriving DecidableEq, Repr

/-- `transformOddsData` on one game (sportsDataIoApi.ts lines 581-698).
`freshId` stands for the `Date.now()`/`Math.random()` fallback id used when
`GameID` is absent. -/
def transformOddsGame (sport freshId : String) (g : SdioGame) : RawEvent :=
  let homeName := jsOrStr g.HomeTeam "Home"
  let awayName := jsOrStr g.AwayTeam "Away"
  { id := jsOrStr g.GameID freshId,
    sport_key := sport,
    home_team := some (jsOrStr g.HomeTeam (jsOrStr g.HomeTeamName "Home Team")),
    away_team := some (jsOrStr g.AwayTeam (jsOrStr g.AwayTeamName "Away Team")),
    commence_time := jsOrOpt g.DateTime g.Day,
    completed := g.Status = some "Final" ∨ g.IsClosed = some true,
    home_score := g.HomeScore,
    away_score := g.AwayScore,
    bookmakers := g.PregameOdds.foldl (pregameStep homeName awayName) [] }

/-! ## Best-odds selection -/

/-- JavaScript `Number(row.price)` for a nullable stored decimal:
`Number(null)` is `0`, and a decimal column value is always finite, so the
`Number.isFinite` guard of the reduce never fires. -/
def priceNumOf (p : Option ℚ) : ℚ := p.getD 0

/-- The per-side projection of the best-odds summary reduce (routes.ts
lines 356-377): walk the rows, keep the row of the requested outcome side
whose price is strictly greater than the running best (so ties keep the
first-seen row). -/
def bestForSideAux (side : String) : Option OddsRow → List OddsRow → Option OddsRow
  | acc, [] => acc
  | acc, r :: rs =>
      if r.key.outcomeType = side then
        match acc with
        | none => bestForSideAux side (some r) rs
        | some b =>
            if priceNumOf r.price > priceNumOf b.price then
              bestForSideAux side (some r) rs
            else bestForSideAux side acc rs
      else bestForSideAux side acc rs

/-- Best row of one outcome side among the market's rows
(`GET /api/games/:gameId/best-odds/summary`): the rows are pre-filtered to
the requested market and then reduced per outcome side. -/
def bestOddsSummary (rows : List OddsRow) (market side : String) : Option OddsRow :=
  bestForSideAux side none (rows.filter fun r => r.key.market = market)

/-- An `OddsQuote` of part_003's companion helper file part_005. -/
structure Part5Quote where
  book : String
  market : String
  team : Option String
  price : Option ℚ
  spread : Option ℚ
  total : Option ℚ
  updated : String
deriving DecidableEq, Repr

/-- Accumulator loop of `pickBestAmerican` (part_005 lines 162-170):
null-priced quotes are skipped, the first priced quote seeds the best, and
a later quote replaces it only when its price is strictly greater
(`best.price ?? -Infinity` makes a missing best price lose). -/
def pickBestAux : Option Part5Quote → List Part5Quote → Option Part5Quote
  | best, [] => best
  | best, q :: qs =>
      match q.price with
      | none => pickBestAux best qs
      | some p =>
          match best with
          | none => pickBestAux (some q) qs
          | some b =>
              if (match b.price with | some bp => decide (p > bp) | none => true) = true then
                pickBestAux (some q) qs
              else pickBestAux best qs

/-- `pickBestAmerican` (part_005): highest signed American price wins. -/
def pickBestAmerican (qs : List Part5Quote) : Option Part5Quote :=
  pickBestAux none qs

/-! ## Combine merge of `GET /api/odds/unified` (routes.ts 1342-1362) -/

/-- An event in the `combined` list, tagged with its `_source`. -/
structure CombinedEvent where
  ev : RawEvent
  source : String
deriving DecidableEq, Repr

/-- Merge one SportsDataIO event into the combined list: find the first
event with **exactly** equal `home_team` and `away_team` (JavaScript `===`,
case-sensitive) and replace it in place only when the incoming event has
strictly more bookmakers; append when there is no match. -/
def mergeOne (ev : RawEvent) : List CombinedEvent → List CombinedEvent
  | [] => [⟨ev, "SportsDataIO"⟩]
  | c :: cs =>
      if c.ev.home_team = ev.home_team ∧ c.ev.away_team = ev.away_team then
        if c.ev.bookmakers.length < ev.bookmakers.length then
          ⟨ev, "SportsDataIO"⟩ :: cs
        else c :: cs
      else c :: mergeOne ev cs

/-- The combine mode of `GET /api/odds/unified`: ESPN events seed the
combined list, then each SportsDataIO event is merged in. -/
def mergeCombine (espn sdio : List RawEvent) : List CombinedEvent :=
  sdio.foldl (fun acc e => mergeOne e acc) (espn.map fun e => ⟨e, "ESPN"⟩)

/-! ## Rate-limit retry helpers -/

/-- An HTTP response as observed by the retry helpers. -/
structure HttpResp where
  status : Nat
  body : String
deriving DecidableEq, Repr

/-- `response.ok`: status in the 2xx range. -/
def respOk (r : HttpResp) : Bool := 200 ≤ r.status ∧ r.status < 300

/-- A typed provider error carrying the HTTP status and (truncated) body. -/
structure ApiError where
  status : Nat
  body : String
deriving DecidableEq, Repr

/-- Trace of a retry loop: how many requests were issued and the delays
slept between them (in milliseconds). -/
structure FetchTrace where
  attemptsMade : Nat
  delays : List ℚ
deriving DecidableEq, Repr

/-- `SportsDataIoService.fetchWithRetry` (sportsDataIoApi.ts lines 366-399):
on HTTP 429 with `attempt <= 2` sleep `2000 * attempt` ms and retry;
otherwise a non-2xx response throws an error carrying the status, and a 2xx
response returns the body.  `resp` maps the attempt number to the response
observed. -/
def fetchWithRetry (resp : Nat → HttpResp) (attempt : Nat) :
    FetchTrace × Except ApiError String :=
  let r := resp attempt
  if r.status = 429 ∧ attempt ≤ 2 then
    let rec2 := fetchWithRetry resp (attempt + 1)
    (⟨rec2.1.attemptsMade + 1, (2000 * attempt : ℚ) :: rec2.1.delays⟩, rec2.2)
  else if respOk r then (⟨1, []⟩, .ok r.body)
  else (⟨1, []⟩, .error ⟨r.status, r.body⟩)
termination_by 3 - attempt
decreasing_by omega

/-- `fetchJsonWith429Retry` (part_003 lines 4-27): on HTTP 429 with
`attempt <= 2` sleep `min(5, max(1, retryAfter)) * 1000` ms — where
`retryAfter` is the parsed `retry-after` header, defaulting to `2` — and
retry; otherwise behave like `fetchWithRetry`.  `hdr` maps the attempt
number to the parsed numeric header value. -/
def fetchJsonWith429Retry (resp : Nat → HttpResp) (hdr : Nat → Option ℚ)
    (attempt : Nat) : FetchTrace × Except ApiError String :=
  let r := resp attempt
  if r.status = 429 ∧ attempt ≤ 2 then
    let retryAfter := (hdr attempt).getD 2
    let rec2 := fetchJsonWith429Retry resp hdr (attempt + 1)
    (⟨rec2.1.attemptsMade + 1, (min 5 (max 1 retryAfter) * 1000) :: rec2.1.delays⟩,
      rec2.2)
  else if respOk r then (⟨1, []⟩, .ok r.body)
  else (⟨1, []⟩, .error ⟨r.status, r.body⟩)
termination_by 3 - attempt
decreasing_by omega

/-! ## Adapter constructors and credentials -/

/-- `assertApiKey` (oddsApi.ts lines 44-50): an unset or empty
`SPORTSGAMEODDS_API_KEY` throws. -/
def assertApiKey (env : EnvMap) : Except String String :=
  let apiKey := envOr env "SPORTSGAMEODDS_API_KEY" ""
  if apiKey = "" then .error "SPORTSGAMEODDS_API_KEY not configured"
  else .ok apiKey

/-- The SportsGameOdds service state: just the captured key. -/
structure SgoService where
  apiKey : String
deriving DecidableEq, Repr

/-- The `OddsApiService` constructor of oddsApi.ts (lines 128-133): calls
`assertApiKey`, so construction fails fast on a missing credential. -/
def mkOddsApiService (env : EnvMap) : Except String SgoService :=
  (assertApiKey env).map fun k => ⟨k⟩

/-- The `OddsApiService` constructor of part_003 (lines 33-38): stores
`process.env.SPORTSGAMEODDS_API_KEY || ""` and only warns; it never throws. -/
def mkOddsApiServiceP3 (env : EnvMap) : SgoService :=
  ⟨envOr env "SPORTSGAMEODDS_API_KEY" ""⟩

/-- The request-time guard repeated in every part_003 method
(`if (!this.apiKey) throw ...`). -/
def sgoRequestGuard (svc : SgoService) : Except String Unit :=
  if svc.apiKey = "" then .error "SPORTSGAMEODDS_API_KEY not configured"
  else .ok ()

/-- The SportsDataIO service state. -/
structure SdioService where
  apiKey : String
deriving DecidableEq, Repr

/-- The `SportsDataIoService` constructor, first revision
(sportsDataIoApi.ts lines 5-10): substitutes a hard-coded default key when
the environment variable is absent and never throws. -/
def mkSportsDataIoServiceV1 (env : EnvMap) : SdioService :=
  ⟨envOr env "SPORTSDATAIO_API_KEY" "7b7d6b984e5044069cad71fe96bc882e"⟩

/-- The `SportsDataIoService` constructor, second revision
(sportsDataIoApi.ts lines 359-364): stores the empty string and only warns;
it never throws. -/
def mkSportsDataIoServiceV2 (env : EnvMap) : SdioService :=
  ⟨envOr env "SPORTSDATAIO_API_KEY" ""⟩

/-! ## Upstream JSON values (for the ESPN direct-field path) -/

/-- A JSON-ish value as read from the ESPN odds feed.  `null` also stands
for `undefined` (property access on a missing key). -/
inductive J where
  | null
  | num (q : ℚ)
  | str (s : String)
  | jbool (b : Bool)
  | obj (fields : List (String × J))
  | arr (elems : List J)

/-- `v?.k`: property access, `undefined` (here `null`) on anything that is
not an object carrying the key. -/
def getF : J → String → J
  | .obj fields, k => (fields.lookup k).getD .null
  | _, _ => .null

/-- JavaScript `v == null` (loose equality catching both `null` and
`undefined`). -/
def isNull : J → Bool
  | .null => true
  | _ => false

/-- JavaScript truthiness of a JSON value (`NaN` never enters the model). -/
def jTruthy : J → Bool
  | .null => false
  | .num q => q ≠ 0
  | .str s => s ≠ ""
  | .jbool b => b
  | .obj _ => true
  | .arr _ => true

/-- JavaScript `a || b` on JSON values. -/
def jOr (a b : J) : J := if jTruthy a then a else b

/-- JavaScript-style trim over the character list (so that concrete
instances reduce inside the kernel). -/
def strTrim (s : String) : String :=
  ⟨((s.data.dropWhile Char.isWhitespace).reverse.dropWhile
      Char.isWhitespace).reverse⟩

/-- Convert the digits of a character list to a natural number. -/
def digitsToNat (cs : List Char) : Nat :=
  cs.foldl (fun a c => a * 10 + (c.toNat - 48)) 0

/-- JavaScript `Number(string)` restricted to plain decimal literals: an
empty (trimmed) string is `0`; an optional sign followed by digits with an
optional fractional part parses; everything else (including `Infinity`,
hex and exponent forms, which would in any case be rejected by the
`Number.isFinite` guard or never arise from this feed) is `none` (`NaN`). -/
def jsNumber (s : String) : Option ℚ :=
  let t := strTrim s
  if t = "" then some 0
  else
    let signed : ℚ × List Char :=
      match t.toList with
      | '-' :: cs => (-1, cs)
      | '+' :: cs => (1, cs)
      | cs => (1, cs)
    let intPart := signed.2.takeWhile Char.isDigit
    let rest := signed.2.drop intPart.length
    match rest with
    | [] => if intPart.isEmpty then none else some (signed.1 * digitsToNat intPart)
    | '.' :: frac =>
        if frac.all Char.isDigit ∧ ¬(intPart.isEmpty ∧ frac.isEmpty) then
          some (signed.1 *
            ((digitsToNat intPart : ℚ) + (digitsToNat frac : ℚ) / 10 ^ frac.length))
        else none
    | _ => none

/-- `toNum` (espnOdds.ts lines 65-69): `null`/`undefined` stay `null`,
strings go through `Number(...)`, numbers pass through, anything else is
`NaN` and becomes `null`. -/
def toNum : J → Option ℚ
  | .null => none
  | .num q => some q
  | .str s => jsNumber s
  | .jbool _ => none
  | .obj _ => none
  | .arr _ => none

/-- Moneyline block of the direct-field path (espnOdds.ts lines 154-175). -/
def directMoneylineQuotes (prov : J) (book updated : String) : List EspnQuote :=
  let ml := getF prov "moneyline"
  if jTruthy ml ∧ (¬ isNull (getF ml "home") ∨ ¬ isNull (getF ml "away")) then
    (if ¬ isNull (getF ml "home") then
      [({ book := book, market := .moneyline, team := .home,
          price := toNum (getF ml "home"), point := none,
          updated := updated } : EspnQuote)] else []) ++
    (if ¬ isNull (getF ml "away") then
      [({ book := book, market := .moneyline, team := .away,
          price := toNum (getF ml "away"), point := none,
          updated := updated } : EspnQuote)] else [])
  else []

/-- Spread block of the direct-field path (espnOdds.ts lines 177-200). -/
def directSpreadQuotes (prov : J) (book updated : String) : List EspnQuote :=
  let spread := getF prov "spread"
  if jTruthy spread then
    (if ¬ isNull (getF spread "home") then
      [({ book := book, market := .spreads, team := .home,
          price := toNum (jOr (getF spread "homeOdds") (J.num (-110))),
          point := toNum (getF spread "home"),
          updated := updated } : EspnQuote)] else []) ++
    (if ¬ isNull (getF spread "away") then
      [({ book := book, market := .spreads, team := .away,
          price := toNum (jOr (getF spread "awayOdds") (J.num (-110))),
          point := toNum (getF spread "away"),
          updated := updated } : EspnQuote)] else [])
  else []

/-- Totals block of the direct-field path (espnOdds.ts lines 202-224). -/
def directTotalQuotes (prov : J) (book updated : String) : List EspnQuote :=
  let total := jOr (getF prov "total") (getF prov "overUnder")
  if jTruthy total then
    match toNum (jOr (getF total "total") (jOr (getF total "value") total)) with
    | none => []
    | some totalValue =>
        [({ book := book, market := .totals, team := .home,
            price := toNum (jOr (getF total "overOdds") (J.num (-110))),
            point := some totalValue, updated := updated } : EspnQuote),
         ({ book := book, market := .totals, team := .away,
            price := toNum (jOr (getF total "underOdds") (J.num (-110))),
            point := some totalValue, updated := updated } : EspnQuote)]
  else []

/-- The direct-field quote extraction of `getNflOddsToday` (espnOdds.ts
lines 152-224): the three blocks above, pushed in source order. -/
def directFieldQuotes (prov : J) (book updated : String) : List EspnQuote :=
  directMoneylineQuotes prov book updated ++ directSpreadQuotes prov book updated
    ++ directTotalQuotes prov book updated

/-! ## Basic store lemmas -/

theorem applyOp_game_oddsRows (t : Int) (s : Store) (g : GameData) :
    (applyOp t s (.game g)).oddsRows = s.oddsRows := rfl

theorem applyOp_game_movements (t : Int) (s : Store) (g : GameData) :
    (applyOp t s (.game g)).movements = s.movements := rfl

theorem applyOp_game_nextId (t : Int) (s : Store) (g : GameData) :
    (applyOp t s (.game g)).nextId = s.nextId := rfl

theorem applyOp_book_oddsRows (t : Int) (s : Store) (b : BookData) :
    (applyOp t s (.book b)).oddsRows = s.oddsRows := rfl

theorem applyOp_book_movements (t : Int) (s : Store) (b : BookData) :
    (applyOp t s (.book b)).movements = s.movements := rfl

theorem applyOp_book_nextId (t : Int) (s : Store) (b : BookData) :
    (applyOp t s (.book b)).nextId = s.nextId := rfl

theorem oddsLookup_updateOddsRows_self (t : Int) (k : OddsKey)
    (p pt : Option ℚ) (rows : List OddsRow) (r : OddsRow)
    (h : oddsLookup k rows = some r) :
    oddsLookup k (updateOddsRows t k p pt rows) =
      some ⟨r.id, k, p, pt, t⟩ := by
  induction rows with
  | nil => simp [oddsLookup] at h
  | cons x xs ih =>
    by_cases hx : x.key = k
    · simp [oddsLookup, hx] at h
      subst h
      simp [updateOddsRows, oddsLookup, hx]
    · simp [oddsLookup, hx] at h
      simp [updateOddsRows, oddsLookup, hx, ih h]

/-- A one-bookmaker, one-spread-outcome event whose outcome name is the
literal `home`, as ingested by the SportsDataIO sync route. -/
def simpleSpreadEvent (gid bk title home away cs : String) (pr : Option ℚ)
    (pt : ℚ) : RawEvent :=
  ⟨gid, "NFL", some home, some away, some cs, false, none, none,
    [⟨bk, title, none, [⟨"spreads", none, [⟨some "home", pr, some pt⟩]⟩]⟩]⟩

theorem classify_spreads_home_name (homeTeam awayTeam : Option String) :
    classifyOutcomeSync "spreads" (some "home") homeTeam awayTeam = some "home" := by
  rw [classifyOutcomeSync, if_pos (Or.inr rfl), if_pos]
  exact Or.inl (by decide)

theorem ops_simpleSpreadEvent (parse : String → Option Int)
    (gid bk title home away cs : String) (pr : Option ℚ) (pt : ℚ) (tc : Int)
    (hhome : home ≠ "") (haway : away ≠ "") (hcs : cs ≠ "")
    (hparse : parse cs = some tc) :
    sdioOps parse [simpleSpreadEvent gid bk title home away cs pr pt] =
      [.game ⟨gid, "NFL", home, away, some tc, false, some none, some none⟩,
       .book ⟨bk, title, none⟩,
       .quote ⟨gid, bk, "spreads", "home"⟩ pr (some pt)] := by
  simp [sdioOps, opsOfEventSync, simpleSpreadEvent, strTruthy, jsOrStr,
    hhome, haway, hcs, hparse, opsOfBookSync, opsOfMarketSync,
    classify_spreads_home_name]

theorem applyQuote_moved (t : Int) (s : Store) (k : OddsKey) (pr : Option ℚ)
    (P1 P2 : ℚ) (r : OddsRow)
    (hlook : oddsLookup k s.oddsRows = some r) (hpt : r.point = some P1)
    (hne : P2 ≠ P1) :
    applyQuote t k pr (some P2) s =
      { s with
          oddsRows := updateOddsRows t k pr (some P2) s.oddsRows,
          movements := s.movements ++
            [⟨s.nextId, k.gameId, k.market, some P1, some P2, some (P2 - P1), t⟩],
          nextId := s.nextId + 1 } := by
  simp [applyQuote, storeUpsertOdds, hlook, hpt, hne]

theorem applyQuote_same (t : Int) (s : Store) (k : OddsKey) (pr : Option ℚ)
    (P2 : ℚ) (r : OddsRow)
    (hlook : oddsLookup k s.oddsRows = some r) (hpt : r.point = some P2) :
    applyQuote t k pr (some P2) s =
      { s with oddsRows := updateOddsRows t k pr (some P2) s.oddsRows } := by
  simp [applyQuote, storeUpsertOdds, hlook, hpt]

/-- Claim C1: with a row stored for the key `(gid, bk, "spreads", "home")`
carrying point `P1`, ingesting an event that carries point `P2 ≠ P1` for
the same key appends exactly one `LineMovement` row with old value `P1`,
new value `P2` and `movement = P2 - P1`; ingesting the same event again
appends none. -/
theorem sdio_sync_round_trip_line_movement
    (parse : String → Option Int) (s : Store) (t t2 tc : Int)
    (gid bk title home away cs : String) (pr : Option ℚ) (P1 P2 : ℚ)
    (r : OddsRow)
    (hhome : home ≠ "") (haway : away ≠ "") (hcs : cs ≠ "")
    (hparse : parse cs = some tc)
    (hlook : oddsLookup ⟨gid, bk, "spreads", "home"⟩ s.oddsRows = some r)
    (hpt : r.point = some P1) (hne : P2 ≠ P1) :
    (syncSdio parse [simpleSpreadEvent gid bk title home away cs pr P2] t s).store.movements
      = s.movements ++
        [⟨s.nextId, gid, "spreads", some P1, some P2, some (P2 - P1), t⟩]
    ∧ (syncSdio parse [simpleSpreadEvent gid bk title home away cs pr P2] t2
        (syncSdio parse [simpleSpreadEvent gid bk title home away cs pr P2] t s).store).store.movements
      = (syncSdio parse [simpleSpreadEvent gid bk title home away cs pr P2] t s).store.movements := by
  have hops := ops_simpleSpreadEvent parse gid bk title home away cs pr P2 tc
    hhome haway hcs hparse
  have hup := oddsLookup_updateOddsRows_self t ⟨gid, bk, "spreads", "home"⟩
    pr (some P2) s.oddsRows r hlook
  simp only [syncSdio, hops, applyOps, List.foldl, applyOp]
  simp [applyQuote, storeUpsertOdds, hlook, hpt, hne, hup]

/-- Concrete date parser used by witnesses. -/
def c1Parse : String → Option Int := fun s => if s = "D" then some 100 else none

/-- Concrete prior store with one spreads row at point 1. -/
def c1Store : Store :=
  ⟨[], [], [⟨0, ⟨"g1", "dk", "spreads", "home"⟩, some (-110), some 1, 50⟩], [], 1⟩

/-- Witness for `sdio_sync_round_trip_line_movement` at a concrete input. -/
theorem sdio_sync_round_trip_line_movement_witness :
    (syncSdio c1Parse [simpleSpreadEvent "g1" "dk" "DK" "KC" "LV" "D" (some (-110)) 2] 200 c1Store).store.movements
      = c1Store.movements ++ [⟨c1Store.nextId, "g1", "spreads", some 1, some 2, some (2 - 1), 200⟩]
    ∧ (syncSdio c1Parse [simpleSpreadEvent "g1" "dk" "DK" "KC" "LV" "D" (some (-110)) 2] 300
        (syncSdio c1Parse [simpleSpreadEvent "g1" "dk" "DK" "KC" "LV" "D" (some (-110)) 2] 200 c1Store).store).store.movements
      = (syncSdio c1Parse [simpleSpreadEvent "g1" "dk" "DK" "KC" "LV" "D" (some (-110)) 2] 200 c1Store).store.movements :=
  sdio_sync_round_trip_line_movement c1Parse c1Store 200 300 100
    "g1" "dk" "DK" "KC" "LV" "D" (some (-110)) 1 2
    ⟨0, ⟨"g1", "dk", "spreads", "home"⟩, some (-110), some 1, 50⟩
    (by decide) (by decide) (by decide) (by decide) (by decide) (by decide)
    (by decide)

/-- Counterexample to claim C9: with no credential in the environment the
`SportsDataIoService` constructor succeeds instead of failing with an
authentication error — the first revision even substitutes a hard-coded
default API key, and the second proceeds with the empty string. -/
theorem sdio_constructor_no_fail_counterexample :
    (mkSportsDataIoServiceV2 (fun _ => none)).apiKey = ""
    ∧ (mkSportsDataIoServiceV1 (fun _ => none)).apiKey
        = "7b7d6b984e5044069cad71fe96bc882e"
    ∧ (mkOddsApiServiceP3 (fun _ => none)).apiKey = "" := by
  refine ⟨rfl, rfl, rfl⟩

/-- Claim C9 as amended: only the SportsGameOdds adapter of oddsApi.ts fails
fast at construction when its credential is missing or empty; the two
SportsDataIO constructors always succeed, capturing the hard-coded default
key (first revision) or the empty string (second revision); part_003's
SportsGameOdds adapter also constructs successfully and only rejects at
request time via its per-method guard. -/
theorem adapter_credential_behavior (env : EnvMap) :
    ((mkOddsApiService env).isOk
      = !(envOr env "SPORTSGAMEODDS_API_KEY" "" == ""))
    ∧ (mkSportsDataIoServiceV1 env).apiKey
        = envOr env "SPORTSDATAIO_API_KEY" "7b7d6b984e5044069cad71fe96bc882e"
    ∧ (mkSportsDataIoServiceV2 env).apiKey = envOr env "SPORTSDATAIO_API_KEY" ""
    ∧ ((sgoRequestGuard (mkOddsApiServiceP3 env)).isOk
        = !(envOr env "SPORTSGAMEODDS_API_KEY" "" == "")) := by
  refine ⟨?_, rfl, rfl, ?_⟩
  · by_cases h : envOr env "SPORTSGAMEODDS_API_KEY" "" = ""
    · simp [mkOddsApiService, assertApiKey, h, Except.isOk, Except.toBool, Except.map]
    · simp [mkOddsApiService, assertApiKey, h, Except.isOk, Except.toBool, Except.map]
  · by_cases h : envOr env "SPORTSGAMEODDS_API_KEY" "" = ""
    · simp [sgoRequestGuard, mkOddsApiServiceP3, h, Except.isOk, Except.toBool]
    · simp [sgoRequestGuard, mkOddsApiServiceP3, h, Except.isOk, Except.toBool]

theorem fetchWithRetry_attempt3 (resp : Nat → HttpResp)
    (h : (resp 3).status = 429) :
    fetchWithRetry resp 3 = (⟨1, []⟩, .error ⟨429, (resp 3).body⟩) := by
  unfold fetchWithRetry
  have h3 : ¬((resp 3).status = 429 ∧ 3 ≤ 2) := by omega
  have hok : respOk (resp 3) = false := by simp [respOk]; omega
  simp [h3, hok, h]

theorem fetchJson429_attempt3 (resp : Nat → HttpResp) (hdr : Nat → Option ℚ)
    (h : (resp 3).status = 429) :
    fetchJsonWith429Retry resp hdr 3 = (⟨1, []⟩, .error ⟨429, (resp 3).body⟩) := by
  unfold fetchJsonWith429Retry
  have h3 : ¬((resp 3).status = 429 ∧ 3 ≤ 2) := by omega
  have hok : respOk (resp 3) = false := by simp [respOk]; omega
  simp [h3, hok, h]

/-- Counterexample to claim C8: for `fetchJsonWith429Retry` (part_003) under
constant 429 responses with no `retry-after` header, the two sleeps are both
2000 ms — not the claimed base delay times the attempt number, which would
give 2000 then 4000 (that schedule belongs to the SportsDataIO helper only). -/
theorem fetchJson429_delay_counterexample :
    (fetchJsonWith429Retry (fun _ => ⟨429, "rate limited"⟩) (fun _ => none) 1).1.delays
      = [2000, 2000]
    ∧ ([2000, 2000] : List ℚ) ≠ [2000 * 1, 2000 * 2]
    ∧ (fetchJsonWith429Retry (fun _ => ⟨429, "rate limited"⟩) (fun _ => none) 1).1.attemptsMade = 3
    ∧ (fetchJsonWith429Retry (fun _ => ⟨429, "rate limited"⟩) (fun _ => none) 1).2
        = .error ⟨429, "rate limited"⟩ := by
  have h3 := fetchJson429_attempt3 (fun _ => ⟨429, "rate limited"⟩) (fun _ => none) rfl
  refine ⟨?_, by norm_num, ?_, ?_⟩ <;>
    unfold fetchJsonWith429Retry <;>
    simp [respOk] <;>
    unfold fetchJsonWith429Retry <;>
    simp [respOk, h3] <;>
    norm_num

theorem fetchWithRetry_attempts_le_three (resp : Nat → HttpResp) :
    (fetchWithRetry resp 1).1.attemptsMade ≤ 3 := by
  unfold fetchWithRetry
  by_cases h1 : (resp 1).status = 429 ∧ 1 ≤ 2
  · simp only [h1, and_self, if_true, reduceIte]
    unfold fetchWithRetry
    by_cases h2 : (resp 2).status = 429 ∧ 2 ≤ 2
    · simp only [h2, and_self, if_true, reduceIte]
      unfold fetchWithRetry
      have h3 : ¬((resp 3).status = 429 ∧ 3 ≤ 2) := by omega
      simp only [h3, if_false, reduceIte]
      split <;> simp
    · simp only [h2, if_false, reduceIte]
      split <;> simp
  · simp only [h1, if_false, reduceIte]
    split <;> simp

theorem fetchJson429_attempts_le_three (resp : Nat → HttpResp)
    (hdr : Nat → Option ℚ) :
    (fetchJsonWith429Retry resp hdr 1).1.attemptsMade ≤ 3 := by
  unfold fetchJsonWith429Retry
  by_cases h1 : (resp 1).status = 429 ∧ 1 ≤ 2
  · simp only [h1, and_self, if_true, reduceIte]
    unfold fetchJsonWith429Retry
    by_cases h2 : (resp 2).status = 429 ∧ 2 ≤ 2
    · simp only [h2, and_self, if_true, reduceIte]
      unfold fetchJsonWith429Retry
      have h3 : ¬((resp 3).status = 429 ∧ 3 ≤ 2) := by omega
      simp only [h3, if_false, reduceIte]
      split <;> simp
    · simp only [h2, if_false, reduceIte]
      split <;> simp
  · simp only [h1, if_false, reduceIte]
    split <;> simp

/-- Claim C8 as amended: both fetch-with-retry helpers make at most three
requests for any sequence of responses; under persistent HTTP 429 each
surfaces an error carrying status 429 after the third attempt; the
SportsDataIO helper sleeps `2000 * attempt` ms between attempts, while the
part_003 helper sleeps the clamped `retry-after` value (default 2 s) — a
constant, not base-times-attempt. -/
theorem retry_helpers_bounded (resp : Nat → HttpResp) (hdr : Nat → Option ℚ)
    (h429 : ∀ n, (resp n).status = 429) :
    (fetchWithRetry resp 1).1.attemptsMade ≤ 3
    ∧ (fetchJsonWith429Retry resp hdr 1).1.attemptsMade ≤ 3
    ∧ (fetchWithRetry resp 1).2 = .error ⟨429, (resp 3).body⟩
    ∧ (fetchWithRetry resp 1).1.delays = [2000 * 1, 2000 * 2]
    ∧ (fetchJsonWith429Retry resp hdr 1).2 = .error ⟨429, (resp 3).body⟩
    ∧ (fetchJsonWith429Retry resp hdr 1).1.delays
        = [min 5 (max 1 ((hdr 1).getD 2)) * 1000,
           min 5 (max 1 ((hdr 2).getD 2)) * 1000] := by
  have e3 := fetchWithRetry_attempt3 resp (h429 3)
  have e3j := fetchJson429_attempt3 resp hdr (h429 3)
  have e1 : fetchWithRetry resp 1 =
      (⟨3, [2000 * 1, 2000 * 2]⟩, .error ⟨429, (resp 3).body⟩) := by
    unfold fetchWithRetry
    simp only [h429, and_self, if_true, reduceIte, Nat.one_le_ofNat, and_true]
    unfold fetchWithRetry
    simp [h429, e3]
  have e1j : fetchJsonWith429Retry resp hdr 1 =
      (⟨3, [min 5 (max 1 ((hdr 1).getD 2)) * 1000,
            min 5 (max 1 ((hdr 2).getD 2)) * 1000]⟩,
       .error ⟨429, (resp 3).body⟩) := by
    unfold fetchJsonWith429Retry
    simp only [h429, and_self, if_true, reduceIte, Nat.one_le_ofNat, and_true]
    unfold fetchJsonWith429Retry
    simp [h429, e3j]
  refine ⟨fetchWithRetry_attempts_le_three resp,
    fetchJson429_attempts_le_three resp hdr, ?_, ?_, ?_, ?_⟩ <;>
    simp [e1, e1j]

/-- Witness for `retry_helpers_bounded` under constant 429 responses. -/
theorem retry_helpers_bounded_witness :
    (fetchWithRetry (fun _ => ⟨429, "x"⟩) 1).1.attemptsMade ≤ 3
    ∧ (fetchJsonWith429Retry (fun _ => ⟨429, "x"⟩) (fun _ => none) 1).1.attemptsMade ≤ 3
    ∧ (fetchWithRetry (fun _ => ⟨429, "x"⟩) 1).2 = .error ⟨429, "x"⟩
    ∧ (fetchWithRetry (fun _ => ⟨429, "x"⟩) 1).1.delays = [2000, 4000]
    ∧ (fetchJsonWith429Retry (fun _ => ⟨429, "x"⟩) (fun _ => none) 1).2
        = .error ⟨429, "x"⟩
    ∧ (fetchJsonWith429Retry (fun _ => ⟨429, "x"⟩) (fun _ => none) 1).1.delays
        = [2000, 2000] := by
  have h := retry_helpers_bounded (fun _ => ⟨429, "x"⟩) (fun _ => none)
    (fun _ => rfl)
  norm_num at h
  exact h

/-- A minimal bookmaker block used to vary bookmaker counts in merge tests. -/
def stubBook (k : String) : RawBookmaker := ⟨k, k, none, []⟩

/-- ESPN-side event for the merge counterexample: mixed-case team names,
one bookmaker. -/
def c7EspnEvent : RawEvent :=
  ⟨"e1", "NFL", some "Chiefs", some "Raiders", some "T", false, none, none,
    [stubBook "b1"]⟩

/-- SportsDataIO-side event for the same real-world game with upper-case
team names and three bookmakers. -/
def c7SdioEvent : RawEvent :=
  ⟨"s1", "NFL", some "CHIEFS", some "RAIDERS", some "T", false, none, none,
    [stubBook "b1", stubBook "b2", stubBook "b3"]⟩

/-- Counterexample to claim C7: the combine merge matches team names with
case-sensitive `===`, so the same game spelled `Chiefs`/`CHIEFS` is not
merged — both versions stay in the combined list (and the 3-bookmaker batch
does not replace the 1-bookmaker one), even though the names agree
case-insensitively. -/
theorem merge_case_sensitive_counterexample :
    (mergeCombine [c7EspnEvent] [c7SdioEvent]).length = 2
    ∧ strLower (jsOrStr c7EspnEvent.home_team "")
        = strLower (jsOrStr c7SdioEvent.home_team "")
    ∧ strLower (jsOrStr c7EspnEvent.away_team "")
        = strLower (jsOrStr c7SdioEvent.away_team "")
    ∧ (mergeCombine [c7EspnEvent] [c7SdioEvent]).map CombinedEvent.source
        = ["ESPN", "SportsDataIO"] := by
  refine ⟨by decide, by decide, by decide, by decide⟩

/-- Claim C7 as amended: events are merged only on **exactly** equal (still
case-sensitive) team-name pairs; for an exact match the incoming
SportsDataIO event replaces the ESPN one precisely when its bookmaker count
is strictly greater, and an equal count keeps the first-seen (ESPN)
version. -/
theorem merge_exact_match_keeps_more_books (a b : RawEvent)
    (hh : a.home_team = b.home_team) (ha : a.away_team = b.away_team) :
    mergeCombine [a] [b] =
      if a.bookmakers.length < b.bookmakers.length then [⟨b, "SportsDataIO"⟩]
      else [⟨a, "ESPN"⟩] := by
  simp only [mergeCombine, List.map, List.foldl, mergeOne, hh, ha, and_self,
    if_true, reduceIte]

/-- Witness for `merge_exact_match_keeps_more_books`: with exactly matching
names, a 3-bookmaker batch replaces a 1-bookmaker one. -/
theorem merge_exact_match_keeps_more_books_witness :
    mergeCombine
        [⟨"e1", "NFL", some "Chiefs", some "Raiders", some "T", false, none,
          none, [stubBook "b1"]⟩]
        [⟨"s1", "NFL", some "Chiefs", some "Raiders", some "T", false, none,
          none, [stubBook "b1", stubBook "b2", stubBook "b3"]⟩] =
      if ([stubBook "b1"].length < [stubBook "b1", stubBook "b2", stubBook "b3"].length) then
        [⟨⟨"s1", "NFL", some "Chiefs", some "Raiders", some "T", false, none,
           none, [stubBook "b1", stubBook "b2", stubBook "b3"]⟩, "SportsDataIO"⟩]
      else
        [⟨⟨"e1", "NFL", some "Chiefs", some "Raiders", some "T", false, none,
           none, [stubBook "b1"]⟩, "ESPN"⟩] :=
  merge_exact_match_keeps_more_books _ _ rfl rfl

/-- Provider JSON for the C10 counterexample: a spread whose `homeOdds` is
the truthy but non-numeric string `EVEN`. -/
def c10Prov : J :=
  J.obj [("spread", J.obj [("home", J.num (-4)), ("homeOdds", J.str "EVEN")])]

/-- Counterexample to claim C10: with a truthy non-numeric odds field
(`homeOdds: "EVEN"`), `spread.homeOdds || -110` keeps the string, `toNum`
turns it into `null`, and the direct-field path emits a spread quote whose
price is null — not every emitted spread quote has a non-null price. -/
theorem direct_field_null_price_counterexample :
    directFieldQuotes c10Prov "B" "U"
      = [⟨"B", .spreads, .home, none, some (-4), "U"⟩] := by
  decide

theorem directMoneylineQuotes_market (prov : J) (b u : String) :
    ∀ q ∈ directMoneylineQuotes prov b u, q.market = EMarket.moneyline := by
  intro q hq
  unfold directMoneylineQuotes at hq
  dsimp only at hq
  split at hq
  · simp only [List.mem_append] at hq
    rcases hq with h | h <;> (split at h <;> simp_all)
  · simp at hq

theorem directSpreadQuotes_market (prov : J) (b u : String) :
    ∀ q ∈ directSpreadQuotes prov b u, q.market = EMarket.spreads := by
  intro q hq
  unfold directSpreadQuotes at hq
  dsimp only at hq
  split at hq
  · simp only [List.mem_append] at hq
    rcases hq with h | h <;> (split at h <;> simp_all)
  · simp at hq

theorem directTotalQuotes_market (prov : J) (b u : String) :
    ∀ q ∈ directTotalQuotes prov b u, q.market = EMarket.totals := by
  intro q hq
  unfold directTotalQuotes at hq
  dsimp only at hq
  split at hq
  · split at hq
    · simp at hq
    · simp only [List.mem_cons, List.mem_singleton, List.not_mem_nil,
        or_false] at hq
      rcases hq with h | h <;> subst h <;> rfl
  · simp at hq

theorem directFieldQuotes_filter_totals (prov : J) (b u : String) :
    (directFieldQuotes prov b u).filter (fun q => q.market == EMarket.totals)
      = directTotalQuotes prov b u := by
  unfold directFieldQuotes
  rw [List.filter_append, List.filter_append]
  have h1 : (directMoneylineQuotes prov b u).filter
      (fun q => q.market == EMarket.totals) = [] := by
    rw [List.filter_eq_nil_iff]
    intro q hq
    simp [directMoneylineQuotes_market prov b u q hq]
  have h2 : (directSpreadQuotes prov b u).filter
      (fun q => q.market == EMarket.totals) = [] := by
    rw [List.filter_eq_nil_iff]
    intro q hq
    simp [directSpreadQuotes_market prov b u q hq]
  have h3 : (directTotalQuotes prov b u).filter
      (fun q => q.market == EMarket.totals) = directTotalQuotes prov b u := by
    rw [List.filter_eq_self]
    intro q hq
    simp [directTotalQuotes_market prov b u q hq]
  rw [h1, h2, h3, List.nil_append, List.nil_append]

/-- Claim C10 as amended: in the direct-field path a spread quote's price is
fabricated as `-110` exactly when the upstream odds field is **falsy**
(absent, null, `0`, the empty string or `false`); a truthy non-numeric odds
value instead yields a null price; and for every total whose line value
parses, the path emits exactly the over quote (team `home`) and under quote
(team `away`), in that order, both carrying the same point. -/
theorem direct_field_fallback_and_totals_pair (prov : J) (b u : String) (v : ℚ)
    (hsp : jTruthy (getF prov "spread") = true)
    (hh : isNull (getF (getF prov "spread") "home") = false)
    (hfo : jTruthy (getF (getF prov "spread") "homeOdds") = false)
    (hv : toNum (jOr (getF (jOr (getF prov "total") (getF prov "overUnder")) "total")
            (jOr (getF (jOr (getF prov "total") (getF prov "overUnder")) "value")
              (jOr (getF prov "total") (getF prov "overUnder")))) = some v)
    (ht : jTruthy (jOr (getF prov "total") (getF prov "overUnder")) = true) :
    ((⟨b, .spreads, .home, some (-110),
        toNum (getF (getF prov "spread") "home"), u⟩ : EspnQuote)
        ∈ directFieldQuotes prov b u)
    ∧ (directFieldQuotes prov b u).filter (fun q => q.market == EMarket.totals)
        = [⟨b, .totals, .home,
            toNum (jOr (getF (jOr (getF prov "total") (getF prov "overUnder"))
              "overOdds") (J.num (-110))), some v, u⟩,
           ⟨b, .totals, .away,
            toNum (jOr (getF (jOr (getF prov "total") (getF prov "overUnder"))
              "underOdds") (J.num (-110))), some v, u⟩] := by
  constructor
  · unfold directFieldQuotes directSpreadQuotes
    have hor : jOr (getF (getF prov "spread") "homeOdds") (J.num (-110))
        = J.num (-110) := by simp [jOr, hfo]
    simp only [List.mem_append, hsp, hh, hor]
    simp [toNum]
  · rw [directFieldQuotes_filter_totals]
    unfold directTotalQuotes
    simp only [ht, hv, if_true, reduceIte]

/-- Provider JSON for the C10 witness: spread with absent odds fields and a
total with a parseable line. -/
def c10WitnessProv : J :=
  J.obj [("spread", J.obj [("home", J.num (-3)), ("away", J.num 3)]),
         ("total", J.obj [("total", J.num 45), ("overOdds", J.num (-105))])]

/-- Witness for `direct_field_fallback_and_totals_pair` at a concrete
provider object. -/
theorem direct_field_fallback_and_totals_pair_witness :
    ((⟨"B", .spreads, .home, some (-110),
        toNum (getF (getF c10WitnessProv "spread") "home"), "U"⟩ : EspnQuote)
        ∈ directFieldQuotes c10WitnessProv "B" "U")
    ∧ (directFieldQuotes c10WitnessProv "B" "U").filter
        (fun q => q.market == EMarket.totals)
        = [⟨"B", .totals, .home,
            toNum (jOr (getF (jOr (getF c10WitnessProv "total")
              (getF c10WitnessProv "overUnder")) "overOdds") (J.num (-110))),
            some 45, "U"⟩,
           ⟨"B", .totals, .away,
            toNum (jOr (getF (jOr (getF c10WitnessProv "total")
              (getF c10WitnessProv "overUnder")) "underOdds") (J.num (-110))),
            some 45, "U"⟩] :=
  direct_field_fallback_and_totals_pair c10WitnessProv "B" "U" 45
    (by decide) (by decide) (by decide) (by decide) (by decide)

/-- A SportsDataIO upstream game with a single sportsbook quoting only a
home moneyline of `a` (American odds). -/
def c6GameWith (a : ℚ) : SdioGame :=
  ⟨some "g1", some "D", none, some "KC", some "LV", none, none, none, none,
   none, none,
   [⟨some "dk", some "DraftKings", none, some a, none, none, none, none,
     none, none, none⟩]⟩

theorem sdio_moneyline_stored_price (a : ℚ) (ha : a ≠ 0) :
    oddsLookup ⟨"g1", "dk", "h2h", "home"⟩
      (syncSdio c1Parse [transformOddsGame "NFL" "f" (c6GameWith a)] 200
        emptyStore).store.oddsRows
      = some ⟨0, ⟨"g1", "dk", "h2h", "home"⟩,
          some (convertAmericanToDecimal a), none, 200⟩ := by
  have hcl : classifyOutcomeSync "h2h" (some "KC") (some "KC") (some "LV")
      = some "home" := by decide
  have hops : sdioOps c1Parse [transformOddsGame "NFL" "f" (c6GameWith a)] =
      [.game ⟨"g1", "NFL", "KC", "LV", some 100, false, some none, some none⟩,
       .book ⟨"dk", "DraftKings", none⟩,
       .quote ⟨"g1", "dk", "h2h", "home"⟩
         (some (convertAmericanToDecimal a)) none] := by
    simp [sdioOps, transformOddsGame, c6GameWith, pregameStep, marketsOfOdd,
      createdStamp, truthyQ, ha, jsOrStr, jsOrOpt, strTruthy, opsOfEventSync,
      opsOfBookSync, opsOfMarketSync, hcl, c1Parse, appendMarkets]
  simp [syncSdio, hops, applyOps, applyOp, applyQuote, storeUpsertOdds,
    oddsLookup, emptyStore]

/-- Counterexample to claim C6: a SportsDataIO home moneyline of `+150`
(American) is converted to decimal `2.5` by `transformOddsData`, and it is
this converted value — not the American `150` — that flows through
`upsertOdds` and is persisted. -/
theorem sdio_converts_american_before_persist_counterexample :
    oddsLookup ⟨"g1", "dk", "h2h", "home"⟩
      (syncSdio c1Parse [transformOddsGame "NFL" "f" (c6GameWith 150)] 200
        emptyStore).store.oddsRows
      = some ⟨0, ⟨"g1", "dk", "h2h", "home"⟩,
          some (convertAmericanToDecimal 150), none, 200⟩
    ∧ convertAmericanToDecimal 150 = 5 / 2
    ∧ (5 / 2 : ℚ) ≠ 150 := by
  refine ⟨sdio_moneyline_stored_price 150 (by norm_num), ?_, by norm_num⟩
  norm_num [convertAmericanToDecimal]

/-- Claim C6 as amended: the SportsDataIO adapter converts American odds to
decimal via `decimal = odds > 0 ? odds/100 + 1 : 100/abs(odds) + 1` already
at transform time, and the converted decimal value is what reaches
`upsertOdds` and is persisted; only the ESPN transform passes the quote's
price through unconverted (`price: q.price || 0`). -/
theorem adapter_price_conversion (a : ℚ) (ha : a ≠ 0) :
    (oddsLookup ⟨"g1", "dk", "h2h", "home"⟩
      (syncSdio c1Parse [transformOddsGame "NFL" "f" (c6GameWith a)] 200
        emptyStore).store.oddsRows
      = some ⟨0, ⟨"g1", "dk", "h2h", "home"⟩,
          some (convertAmericanToDecimal a), none, 200⟩)
    ∧ (∀ (mk : EMarket) (data : EspnGame) (q : EspnQuote),
        (espnOutcome mk data q).price = some (q.price.getD 0)) :=
  ⟨sdio_moneyline_stored_price a ha, fun _ _ _ => rfl⟩

/-- Witness for `adapter_price_conversion` at American odds `-105`. -/
theorem adapter_price_conversion_witness :
    (oddsLookup ⟨"g1", "dk", "h2h", "home"⟩
      (syncSdio c1Parse [transformOddsGame "NFL" "f" (c6GameWith (-105))] 200
        emptyStore).store.oddsRows
      = some ⟨0, ⟨"g1", "dk", "h2h", "home"⟩,
          some (convertAmericanToDecimal (-105)), none, 200⟩)
    ∧ (∀ (mk : EMarket) (data : EspnGame) (q : EspnQuote),
        (espnOutcome mk data q).price = some (q.price.getD 0)) :=
  adapter_price_conversion (-105) (by norm_num)

/-! ## Generic strict-replace fold, shared by both best-price reducers -/

/-- Strict-replace best fold: skip unpriced elements, seed with the first
priced one, replace only on a strictly greater price. Both the summary
reduce and `pickBestAmerican` are instances. -/
def foldBest {α : Type} (f : α → Option ℚ) : Option α → List α → Option α
  | acc, [] => acc
  | acc, x :: xs =>
      match f x with
      | none => foldBest f acc xs
      | some p =>
          match acc with
          | none => foldBest f (some x) xs
          | some b =>
              match f b with
              | some q => if p > q then foldBest f (some x) xs
                          else foldBest f acc xs
              | none => foldBest f (some x) xs

theorem pickBestAux_eq_foldBest :
    ∀ (qs : List Part5Quote) (acc : Option Part5Quote),
      pickBestAux acc qs = foldBest (fun q => q.price) acc qs := by
  intro qs
  induction qs with
  | nil => intro acc; rfl
  | cons q qs ih =>
    intro acc
    rw [pickBestAux, foldBest]
    cases hq : q.price with
    | none => simp only [hq, ih]
    | some p =>
      cases acc with
      | none => simp only [hq, ih]
      | some b =>
        cases hb : b.price with
        | none => simp [hq, hb, ih]
        | some bp =>
          by_cases hgt : p > bp
          · simp [hq, hb, hgt, ih]
          · simp [hq, hb, hgt, ih]

theorem bestForSideAux_eq_foldBest (side : String) :
    ∀ (rows : List OddsRow) (acc : Option OddsRow),
      bestForSideAux side acc rows =
        foldBest (fun r => some (priceNumOf r.price)) acc
          (rows.filter fun r => r.key.outcomeType = side) := by
  intro rows
  induction rows with
  | nil => intro acc; rfl
  | cons r rs ih =>
    intro acc
    by_cases hside : r.key.outcomeType = side
    · rw [bestForSideAux.eq_def]
      simp only [hside, if_true, reduceIte, List.filter_cons, decide_True,
        foldBest]
      cases acc with
      | none => simp [ih]
      | some b =>
        by_cases hgt : priceNumOf r.price > priceNumOf b.price
        · simp [hgt, ih]
        · simp [hgt, ih]
    · rw [bestForSideAux.eq_def]
      simp only [hside, if_false, reduceIte, List.filter_cons, decide_False]
      exact ih acc

theorem foldBest_acc_spec {α : Type} (f : α → Option ℚ) :
    ∀ (xs : List α) (a : α) (q : ℚ), f a = some q →
      ∀ b, foldBest f (some a) xs = some b →
      ∃ qb, f b = some qb ∧ (∀ y ∈ xs, ∀ p, f y = some p → p ≤ qb) ∧
        ((b = a ∧ qb = q) ∨
         ∃ pre post, xs = pre ++ b :: post ∧ q < qb ∧
           ∀ y ∈ pre, ∀ p, f y = some p → p < qb) := by
  intro xs
  induction xs with
  | nil =>
    intro a q hfa b hb
    simp only [foldBest, Option.some_inj] at hb
    subst hb
    exact ⟨q, hfa, by simp, Or.inl ⟨rfl, rfl⟩⟩
  | cons y ys ih =>
    intro a q hfa b hb
    rw [foldBest] at hb
    cases hfy : f y with
    | none =>
      simp only [hfy] at hb
      obtain ⟨qb, hfb, hbound, hdisj⟩ := ih a q hfa b hb
      refine ⟨qb, hfb, ?_, ?_⟩
      · intro z hz p hfz
        rcases List.mem_cons.mp hz with hzy | hzys
        · subst hzy; rw [hfy] at hfz; exact absurd hfz (by simp)
        · exact hbound z hzys p hfz
      · rcases hdisj with h | ⟨pre, post, heq, hlt, hpre⟩
        · exact Or.inl h
        · refine Or.inr ⟨y :: pre, post, by rw [heq]; rfl, hlt, ?_⟩
          intro z hz p hfz
          rcases List.mem_cons.mp hz with hzy | hzpre
          · subst hzy; rw [hfy] at hfz; exact absurd hfz (by simp)
          · exact hpre z hzpre p hfz
    | some p =>
      simp only [hfy, hfa] at hb
      by_cases hpq : p > q
      · rw [if_pos hpq] at hb
        obtain ⟨qb, hfb, hbound, hdisj⟩ := ih y p hfy b hb
        have hple : p ≤ qb := by
          rcases hdisj with ⟨_, hq⟩ | ⟨_, _, _, hlt, _⟩
          · exact le_of_eq hq.symm
          · exact le_of_lt hlt
        refine ⟨qb, hfb, ?_, Or.inr ?_⟩
        · intro z hz pz hfz
          rcases List.mem_cons.mp hz with hzy | hzys
          · subst hzy; rw [hfy] at hfz
            exact (Option.some_inj.mp hfz) ▸ hple
          · exact hbound z hzys pz hfz
        · rcases hdisj with ⟨hbeq, hqb⟩ | ⟨pre, post, heq, hlt, hpre⟩
          · subst hbeq
            exact ⟨[], ys, rfl, by rw [hqb]; exact hpq, by simp⟩
          · refine ⟨y :: pre, post, by rw [heq]; rfl, lt_trans hpq hlt, ?_⟩
            intro z hz pz hfz
            rcases List.mem_cons.mp hz with hzy | hzpre
            · subst hzy; rw [hfy] at hfz
              exact (Option.some_inj.mp hfz) ▸ hlt
            · exact hpre z hzpre pz hfz
      · rw [if_neg hpq] at hb
        obtain ⟨qb, hfb, hbound, hdisj⟩ := ih a q hfa b hb
        have hqqb : q ≤ qb := by
          rcases hdisj with ⟨_, hq⟩ | ⟨_, _, _, hlt, _⟩
          · exact le_of_eq hq.symm
          · exact le_of_lt hlt
        have hpq2 : p ≤ q := le_of_not_lt hpq
        refine ⟨qb, hfb, ?_, ?_⟩
        · intro z hz pz hfz
          rcases List.mem_cons.mp hz with hzy | hzys
          · subst hzy; rw [hfy] at hfz
            exact (Option.some_inj.mp hfz) ▸ le_trans hpq2 hqqb
          · exact hbound z hzys pz hfz
        · rcases hdisj with h | ⟨pre, post, heq, hlt, hpre⟩
          · exact Or.inl h
          · refine Or.inr ⟨y :: pre, post, by rw [heq]; rfl, hlt, ?_⟩
            intro z hz pz hfz
            rcases List.mem_cons.mp hz with hzy | hzpre
            · subst hzy; rw [hfy] at hfz
              exact (Option.some_inj.mp hfz) ▸ lt_of_le_of_lt hpq2 hlt
            · exact hpre z hzpre pz hfz

theorem foldBest_none_split {α : Type} (f : α → Option ℚ) :
    ∀ (xs : List α) (b : α), foldBest f none xs = some b →
      ∃ pre x post q, xs = pre ++ x :: post ∧ (∀ y ∈ pre, f y = none) ∧
        f x = some q ∧ foldBest f (some x) post = some b := by
  intro xs
  induction xs with
  | nil => intro b hb; simp [foldBest] at hb
  | cons y ys ih =>
    intro b hb
    rw [foldBest] at hb
    cases hfy : f y with
    | none =>
      simp only [hfy] at hb
      obtain ⟨pre, x, post, q, heq, hpre, hfx, hfold⟩ := ih b hb
      refine ⟨y :: pre, x, post, q, by rw [heq]; rfl, ?_, hfx, hfold⟩
      intro z hz
      rcases List.mem_cons.mp hz with hzy | hzpre
      · subst hzy; exact hfy
      · exact hpre z hzpre
    | some p =>
      simp only [hfy] at hb
      exact ⟨[], y, ys, p, rfl, by simp, hfy, hb⟩

theorem foldBest_some_isSome {α : Type} (f : α → Option ℚ) :
    ∀ (xs : List α) (a : α), ∃ b, foldBest f (some a) xs = some b := by
  intro xs
  induction xs with
  | nil => intro a; exact ⟨a, rfl⟩
  | cons y ys ih =>
    intro a
    rw [foldBest]
    cases hfy : f y with
    | none => simp only [hfy]; exact ih a
    | some p =>
      simp only [hfy]
      cases hfa : f a with
      | none => simp only [hfa]; exact ih y
      | some q =>
        simp only [hfa]
        by_cases hpq : p > q
        · rw [if_pos hpq]; exact ih y
        · rw [if_neg hpq]; exact ih a

theorem foldBest_none_isSome {α : Type} (f : α → Option ℚ) :
    ∀ (xs : List α), (∃ x ∈ xs, (f x).isSome) →
      ∃ b, foldBest f none xs = some b := by
  intro xs
  induction xs with
  | nil => rintro ⟨x, hx, _⟩; simp at hx
  | cons y ys ih =>
    rintro ⟨x, hx, hfx⟩
    rw [foldBest]
    cases hfy : f y with
    | none =>
      simp only [hfy]
      rcases List.mem_cons.mp hx with hxy | hxys
      · subst hxy; rw [hfy] at hfx; simp at hfx
      · exact ih ⟨x, hxys, hfx⟩
    | some p =>
      simp only [hfy]
      exact foldBest_some_isSome f ys y

theorem pickBestAmerican_spec (qs : List Part5Quote)
    (hq : ∃ x ∈ qs, x.price.isSome) :
    ∃ b qb, pickBestAmerican qs = some b ∧ b ∈ qs ∧ b.price = some qb
      ∧ (∀ y ∈ qs, ∀ p, y.price = some p → p ≤ qb)
      ∧ ∃ pre post, qs = pre ++ b :: post ∧
          ∀ y ∈ pre, ∀ p, y.price = some p → p < qb := by
  have hfold : pickBestAmerican qs = foldBest (fun q => q.price) none qs :=
    pickBestAux_eq_foldBest qs none
  obtain ⟨b, hb⟩ := foldBest_none_isSome (fun q => q.price) qs hq
  obtain ⟨pre0, x, post, q0, heq, hpre0, hfx, hrest⟩ :=
    foldBest_none_split (fun q => q.price) qs b hb
  obtain ⟨qb, hfb, hbound, hdisj⟩ :=
    foldBest_acc_spec (fun q => q.price) post x q0 hfx b hrest
  have hq0qb : q0 ≤ qb := by
    rcases hdisj with ⟨_, hqq⟩ | ⟨_, _, _, hlt, _⟩
    · exact le_of_eq hqq.symm
    · exact le_of_lt hlt
  have hbmem : b ∈ qs := by
    rw [heq]
    rcases hdisj with ⟨hbx, _⟩ | ⟨pre', post', heq', _, _⟩
    · subst hbx; exact List.mem_append_right _ (List.mem_cons_self _ _)
    · refine List.mem_append_right _ (List.mem_cons.mpr (Or.inr ?_))
      rw [heq']
      exact List.mem_append_right _ (List.mem_cons_self _ _)
  refine ⟨b, qb, by rw [hfold]; exact hb, hbmem, hfb, ?_, ?_⟩
  · intro z hz p hfz
    rw [heq] at hz
    rcases List.mem_append.mp hz with hz0 | hzrest
    · rw [hpre0 z hz0] at hfz; exact absurd hfz (by simp)
    · rcases List.mem_cons.mp hzrest with hzx | hzpost
      · subst hzx
        rw [hfx] at hfz
        exact (Option.some_inj.mp hfz) ▸ hq0qb
      · exact hbound z hzpost p hfz
  · rcases hdisj with ⟨hbx, hqq⟩ | ⟨pre', post', heq', hlt, hpre'⟩
    · subst hbx
      refine ⟨pre0, post, heq, ?_⟩
      intro z hz p hfz
      rw [hpre0 z hz] at hfz; exact absurd hfz (by simp)
    · refine ⟨pre0 ++ x :: pre', post', ?_, ?_⟩
      · rw [heq, heq']; simp
      · intro z hz p hfz
        rcases List.mem_append.mp hz with hz0 | hzxpre
        · rw [hpre0 z hz0] at hfz; exact absurd hfz (by simp)
        · rcases List.mem_cons.mp hzxpre with hzx | hzpre
          · subst hzx
            rw [hfx] at hfz
            exact (Option.some_inj.mp hfz) ▸ hlt
          · exact hpre' z hzpre p hfz

theorem bestOddsSummary_spec (rows : List OddsRow) (market side : String)
    (hex : ∃ r ∈ rows, r.key.market = market ∧ r.key.outcomeType = side) :
    ∃ b, bestOddsSummary rows market side = some b
      ∧ b ∈ rows ∧ b.key.market = market ∧ b.key.outcomeType = side
      ∧ (∀ r ∈ rows, r.key.market = market → r.key.outcomeType = side →
          priceNumOf r.price ≤ priceNumOf b.price)
      ∧ ∃ pre post,
          ((rows.filter fun r => r.key.market = market).filter
            fun r => r.key.outcomeType = side) = pre ++ b :: post
          ∧ ∀ r ∈ pre, priceNumOf r.price < priceNumOf b.price := by
  classical
  obtain ⟨r0, hr0, hr0m, hr0s⟩ := hex
  have hr0G : r0 ∈ ((rows.filter fun r => r.key.market = market).filter
      fun r => r.key.outcomeType = side) := by
    simp [List.mem_filter, hr0, hr0m, hr0s]
  have hG : bestOddsSummary rows market side =
      foldBest (fun r => some (priceNumOf r.price)) none
        ((rows.filter fun r => r.key.market = market).filter
          fun r => r.key.outcomeType = side) := by
    rw [bestOddsSummary, bestForSideAux_eq_foldBest]
  set G := ((rows.filter fun r => r.key.market = market).filter
      fun r => r.key.outcomeType = side) with hGdef
  have hmemG : ∀ x, x ∈ G → x ∈ rows ∧ x.key.market = market ∧
      x.key.outcomeType = side := by
    intro x hx
    rw [hGdef] at hx
    simp only [List.mem_filter, decide_eq_true_eq] at hx
    exact ⟨hx.1.1, hx.1.2, hx.2⟩
  obtain ⟨b, hb⟩ := foldBest_none_isSome (fun r => some (priceNumOf r.price)) G
    ⟨r0, hr0G, by simp⟩
  obtain ⟨pre0, x, post, q0, heq, hpre0, hfx, hrest⟩ :=
    foldBest_none_split (fun r => some (priceNumOf r.price)) G b hb
  have hpre0nil : pre0 = [] := by
    cases pre0 with
    | nil => rfl
    | cons z zs => exact absurd (hpre0 z (List.mem_cons_self _ _)) (by simp)
  subst hpre0nil
  simp only [List.nil_append] at heq
  obtain ⟨qb, hfb, hbound, hdisj⟩ :=
    foldBest_acc_spec (fun r => some (priceNumOf r.price)) post x q0 hfx b hrest
  have hqb : qb = priceNumOf b.price := (Option.some_inj.mp hfb).symm
  have hq0 : q0 = priceNumOf x.price := (Option.some_inj.mp hfx).symm
  have hq0qb : q0 ≤ qb := by
    rcases hdisj with ⟨_, hqq⟩ | ⟨_, _, _, hlt, _⟩
    · exact le_of_eq hqq.symm
    · exact le_of_lt hlt
  have hbG : b ∈ G := by
    rw [heq]
    rcases hdisj with ⟨hbx, _⟩ | ⟨pre', post', heq', _, _⟩
    · subst hbx; exact List.mem_cons_self _ _
    · refine List.mem_cons.mpr (Or.inr ?_)
      rw [heq']
      exact List.mem_append_right _ (List.mem_cons_self _ _)
  obtain ⟨hbrows, hbm, hbs⟩ := hmemG b hbG
  refine ⟨b, by rw [hG]; exact hb, hbrows, hbm, hbs, ?_, ?_⟩
  · intro r hr hrm hrs
    have hrG : r ∈ G := by
      rw [hGdef]; simp [List.mem_filter, hr, hrm, hrs]
    rw [heq] at hrG
    rcases List.mem_cons.mp hrG with hrx | hrpost
    · subst hrx
      calc priceNumOf r.price = q0 := hq0.symm
        _ ≤ qb := hq0qb
        _ = priceNumOf b.price := by rw [hqb]
    · have := hbound r hrpost (priceNumOf r.price) rfl
      rw [hqb] at this; exact this
  · rcases hdisj with ⟨hbx, _⟩ | ⟨pre', post', heq', hlt, hpre'⟩
    · subst hbx
      exact ⟨[], post, heq, by simp⟩
    · refine ⟨x :: pre', post', by rw [heq, heq']; rfl, ?_⟩
      intro z hz
      rcases List.mem_cons.mp hz with hzx | hzpre
      · subst hzx
        rw [← hq0, ← hqb] at *
        exact hlt
      · have := hpre' z hzpre (priceNumOf z.price) rfl
        rw [hqb] at this; exact this

/-- Claim C3: the best-odds summary, after filtering to the requested
market, groups rows by `outcomeType` and within each nonempty group returns
a member of the group whose numeric price is greater than or equal to every
other group member's (signed ordering, `Number(null) = 0` for a NULL
price), the first such row in row order (ties keep the first-seen row);
`pickBestAmerican` of part_005 does the same over its quote list, skipping
null-priced quotes. -/
theorem best_odds_group_max_first_seen
    (rows : List OddsRow) (market side : String) (qs : List Part5Quote)
    (hex : ∃ r ∈ rows, r.key.market = market ∧ r.key.outcomeType = side)
    (hq : ∃ x ∈ qs, x.price.isSome) :
    (∃ b, bestOddsSummary rows market side = some b
      ∧ b ∈ rows ∧ b.key.market = market ∧ b.key.outcomeType = side
      ∧ (∀ r ∈ rows, r.key.market = market → r.key.outcomeType = side →
          priceNumOf r.price ≤ priceNumOf b.price)
      ∧ ∃ pre post,
          ((rows.filter fun r => r.key.market = market).filter
            fun r => r.key.outcomeType = side) = pre ++ b :: post
          ∧ ∀ r ∈ pre, priceNumOf r.price < priceNumOf b.price)
    ∧ (∃ b qb, pickBestAmerican qs = some b ∧ b ∈ qs ∧ b.price = some qb
      ∧ (∀ y ∈ qs, ∀ p, y.price = some p → p ≤ qb)
      ∧ ∃ pre post, qs = pre ++ b :: post ∧
          ∀ y ∈ pre, ∀ p, y.price = some p → p < qb) :=
  ⟨bestOddsSummary_spec rows market side hex, pickBestAmerican_spec qs hq⟩

/-- Rows for the `best_odds_group_max_first_seen` witness: home spreads
priced -110, -105 and -105 again — the best is the first -105. -/
def c3Rows : List OddsRow :=
  [⟨0, ⟨"g1", "dk", "spreads", "home"⟩, some (-110), some 1, 0⟩,
   ⟨1, ⟨"g1", "fd", "spreads", "home"⟩, some (-105), some 1, 0⟩,
   ⟨2, ⟨"g1", "mg", "spreads", "home"⟩, some (-105), some 1, 0⟩,
   ⟨3, ⟨"g1", "dk", "spreads", "away"⟩, some 200, some (-1), 0⟩]

/-- Quotes for the part_005 side of the witness: +130 then +150. -/
def c3Quotes : List Part5Quote :=
  [⟨"dk", "moneyline", some "home", some 130, none, none, "u"⟩,
   ⟨"fd", "moneyline", some "home", some 150, none, none, "u"⟩]

/-- Witness for `best_odds_group_max_first_seen` at concrete rows and
quotes. -/
theorem best_odds_group_max_first_seen_witness :
    (∃ b, bestOddsSummary c3Rows "spreads" "home" = some b
      ∧ b ∈ c3Rows ∧ b.key.market = "spreads" ∧ b.key.outcomeType = "home"
      ∧ (∀ r ∈ c3Rows, r.key.market = "spreads" → r.key.outcomeType = "home" →
          priceNumOf r.price ≤ priceNumOf b.price)
      ∧ ∃ pre post,
          ((c3Rows.filter fun r => r.key.market = "spreads").filter
            fun r => r.key.outcomeType = "home") = pre ++ b :: post
          ∧ ∀ r ∈ pre, priceNumOf r.price < priceNumOf b.price)
    ∧ (∃ b qb, pickBestAmerican c3Quotes = some b ∧ b ∈ c3Quotes
      ∧ b.price = some qb
      ∧ (∀ y ∈ c3Quotes, ∀ p, y.price = some p → p ≤ qb)
      ∧ ∃ pre post, c3Quotes = pre ++ b :: post ∧
          ∀ y ∈ pre, ∀ p, y.price = some p → p < qb) :=
  best_odds_group_max_first_seen c3Rows "spreads" "home" c3Quotes
    ⟨⟨0, ⟨"g1", "dk", "spreads", "home"⟩, some (-110), some 1, 0⟩,
      by decide, by decide, by decide⟩
    ⟨⟨"dk", "moneyline", some "home", some 130, none, none, "u"⟩,
      by decide, by decide⟩

theorem opsOfEventSync_skip (parse : String → Option Int) (ev : RawEvent)
    (hbad : ¬(strTruthy ev.home_team = true ∧ strTruthy ev.away_team = true ∧
        strTruthy ev.commence_time = true)
      ∨ parse (jsOrStr ev.commence_time "") = none) :
    opsOfEventSync parse ev = [.skipEvent] := by
  rcases hbad with hguard | hparse
  · rw [opsOfEventSync, if_neg hguard]
  · rw [opsOfEventSync]
    by_cases hguard : strTruthy ev.home_team = true ∧
        strTruthy ev.away_team = true ∧ strTruthy ev.commence_time = true
    · rw [if_pos hguard]
      simp only [hparse]
    · rw [if_neg hguard]

/-- Claim C5 as amended, part 1 (SportsDataIO route): an event missing a
team or commence time, or whose commence time does not parse, increments
`gamesSkipped`, leaves the store exactly as the remaining events leave it
(nothing of the bad event is written), and does not disturb the processing
of the rest of the batch; part 2 (ESPN route): an event missing a team is
dropped **silently** — the result, including every counter, is identical to
the sync without it, so nothing records the skip — and commence times are
not validated at all on this route. -/
theorem sync_event_guard_behavior (parse : String → Option Int)
    (ev ev2 : RawEvent) (rest rest2 : List RawEvent) (t : Int) (s s2 : Store)
    (hbad : ¬(strTruthy ev.home_team = true ∧ strTruthy ev.away_team = true ∧
        strTruthy ev.commence_time = true)
      ∨ parse (jsOrStr ev.commence_time "") = none)
    (hbad2 : ¬(strTruthy ev2.home_team = true ∧ strTruthy ev2.away_team = true)) :
    (syncSdio parse (ev :: rest) t s).store = (syncSdio parse rest t s).store
    ∧ (syncSdio parse (ev :: rest) t s).gamesSkipped
        = (syncSdio parse rest t s).gamesSkipped + 1
    ∧ (syncSdio parse (ev :: rest) t s).gamesUpdated
        = (syncSdio parse rest t s).gamesUpdated
    ∧ (syncSdio parse (ev :: rest) t s).oddsUpdated
        = (syncSdio parse rest t s).oddsUpdated
    ∧ gameLookup ev.id (syncSdio parse [ev] t s).store.games
        = gameLookup ev.id s.games
    ∧ syncEspn parse (ev2 :: rest2) t s2 = syncEspn parse rest2 t s2 := by
  have hskip := opsOfEventSync_skip parse ev hbad
  have hespn : opsOfEventEspn parse ev2 = [] := by
    rw [opsOfEventEspn, if_neg hbad2]
  have hops : sdioOps parse (ev :: rest) = .skipEvent :: sdioOps parse rest := by
    simp [sdioOps, hskip]
  have hops1 : sdioOps parse [ev] = [.skipEvent] := by
    simp [sdioOps, hskip]
  refine ⟨?_, ?_, ?_, ?_, ?_, ?_⟩
  · simp [syncSdio, hops, applyOps, applyOp]
  · simp [syncSdio, hops, countSkips, Nat.add_comm]
  · simp [syncSdio, hops, countGames]
  · simp [syncSdio, hops, countQuotes]
  · simp [syncSdio, hops1, applyOps, applyOp]
  · simp [syncEspn, espnOps, hespn]

/-- ESPN scoreboard entry whose event date is unparseable, fed through
`transformEspnToDbFormat` as the ESPN sync route does. -/
def c5Entries : List (String × EspnGame) :=
  [("9", ⟨"KC", "LV", "garbage",
    [⟨"DK", .spreads, .home, some (-110), some (-3), "u"⟩]⟩)]

/-- Counterexample to claim C5: the ESPN sync route stores a game whose
commence time failed to parse (modelled as `none`) instead of counting it
as skipped — the event is written (`gamesUpdated = 1`) with an invalid
commence time, and the route has no skip counter at all. -/
theorem espn_invalid_commence_stored_counterexample :
    gameLookup "espn_9"
      (syncEspn c1Parse (transformEspnToDbFormat c5Entries "NFL") 200
        emptyStore).store.games
      = some ⟨"espn_9", "NFL", "KC", "LV", none, false, none, none, 200⟩
    ∧ (syncEspn c1Parse (transformEspnToDbFormat c5Entries "NFL") 200
        emptyStore).gamesUpdated = 1 := by
  refine ⟨by decide, by decide⟩

/-- An event with no away team, used by the C5 witness. -/
def c5BadEvent : RawEvent :=
  ⟨"b1", "NFL", some "KC", none, some "D", false, none, none, []⟩

/-- Witness for `sync_event_guard_behavior` at a concrete bad event. -/
theorem sync_event_guard_behavior_witness :
    (syncSdio c1Parse (c5BadEvent :: []) 200 emptyStore).store
        = (syncSdio c1Parse [] 200 emptyStore).store
    ∧ (syncSdio c1Parse (c5BadEvent :: []) 200 emptyStore).gamesSkipped
        = (syncSdio c1Parse [] 200 emptyStore).gamesSkipped + 1
    ∧ (syncSdio c1Parse (c5BadEvent :: []) 200 emptyStore).gamesUpdated
        = (syncSdio c1Parse [] 200 emptyStore).gamesUpdated
    ∧ (syncSdio c1Parse (c5BadEvent :: []) 200 emptyStore).oddsUpdated
        = (syncSdio c1Parse [] 200 emptyStore).oddsUpdated
    ∧ gameLookup c5BadEvent.id
        (syncSdio c1Parse [c5BadEvent] 200 emptyStore).store.games
        = gameLookup c5BadEvent.id emptyStore.games
    ∧ syncEspn c1Parse (c5BadEvent :: []) 200 emptyStore
        = syncEspn c1Parse [] 200 emptyStore :=
  sync_event_guard_behavior c1Parse c5BadEvent c5BadEvent [] [] 200 emptyStore
    emptyStore (Or.inl (by decide)) (by decide)

/-- Drop one market's unclassifiable outcomes. -/
def pruneMarketSync (ev : RawEvent) (m : RawMarket) : RawMarket :=
  { m with
      outcomes := m.outcomes.filter fun o =>
        (classifyOutcomeSync m.key o.name ev.home_team ev.away_team).isSome }

/-- Drop a bookmaker's unclassifiable outcomes. -/
def pruneBookSync (ev : RawEvent) (bm : RawBookmaker) : RawBookmaker :=
  { bm with markets := bm.markets.map (pruneMarketSync ev) }

/-- Drop every outcome that `classifyOutcomeSync` cannot classify, leaving
everything else of the event untouched. -/
def pruneEventSync (ev : RawEvent) : RawEvent :=
  { ev with bookmakers := ev.bookmakers.map (pruneBookSync ev) }

theorem filterMap_filter_classify {α β γ : Type} (cl : α → Option β)
    (mk : α → β → γ) :
    ∀ (l : List α),
      ((l.filter fun a => (cl a).isSome).filterMap
        fun a => (cl a).map (mk a))
      = l.filterMap fun a => (cl a).map (mk a) := by
  intro l
  induction l with
  | nil => rfl
  | cons a as ih =>
    rw [List.filter_cons]
    cases hc : cl a with
    | none => simp [hc, List.filterMap_cons, ih]
    | some b => simp [hc, List.filterMap_cons, ih]

theorem opsOfMarketSync_prune (ev : RawEvent) (bmKey : String) (m : RawMarket) :
    opsOfMarketSync ev bmKey (pruneMarketSync ev m)
      = opsOfMarketSync ev bmKey m := by
  show ((m.outcomes.filter fun o =>
        (classifyOutcomeSync m.key o.name ev.home_team ev.away_team).isSome).filterMap
      fun o => (classifyOutcomeSync m.key o.name ev.home_team ev.away_team).map
        fun ty => SyncOp.quote ⟨ev.id, bmKey, m.key, ty⟩ o.price o.point)
    = m.outcomes.filterMap
      fun o => (classifyOutcomeSync m.key o.name ev.home_team ev.away_team).map
        fun ty => SyncOp.quote ⟨ev.id, bmKey, m.key, ty⟩ o.price o.point
  exact filterMap_filter_classify
    (fun o => classifyOutcomeSync m.key o.name ev.home_team ev.away_team)
    (fun o ty => SyncOp.quote ⟨ev.id, bmKey, m.key, ty⟩ o.price o.point)
    m.outcomes

theorem opsOfBookSync_prune (parse : String → Option Int) (ev : RawEvent)
    (bm : RawBookmaker) :
    opsOfBookSync parse ev (pruneBookSync ev bm)
      = opsOfBookSync parse ev bm := by
  have hmk : ((bm.markets.map (pruneMarketSync ev)).map
        (opsOfMarketSync ev bm.key)).flatten
      = (bm.markets.map (opsOfMarketSync ev bm.key)).flatten := by
    rw [List.map_map]
    congr 1
    apply List.map_congr_left
    intro m _
    exact opsOfMarketSync_prune ev bm.key m
  show (if strTruthy bm.last_update = true then
      match parse (jsOrStr bm.last_update "") with
      | none => []
      | some tb =>
          SyncOp.book ⟨bm.key, bm.title, some (some tb)⟩ ::
            ((bm.markets.map (pruneMarketSync ev)).map
              (opsOfMarketSync ev bm.key)).flatten
    else
      SyncOp.book ⟨bm.key, bm.title, none⟩ ::
        ((bm.markets.map (pruneMarketSync ev)).map
          (opsOfMarketSync ev bm.key)).flatten)
    = opsOfBookSync parse ev bm
  rw [opsOfBookSync]
  by_cases htr : strTruthy bm.last_update = true
  · rw [if_pos htr, if_pos htr]
    cases parse (jsOrStr bm.last_update "") with
    | none => rfl
    | some tb => rw [hmk]
  · rw [if_neg htr, if_neg htr, hmk]

theorem opsOfEventSync_prune (parse : String → Option Int) (ev : RawEvent) :
    opsOfEventSync parse (pruneEventSync ev) = opsOfEventSync parse ev := by
  have hbooks : ((ev.bookmakers.map (pruneBookSync ev)).map
        (opsOfBookSync parse ev)).flatten
      = (ev.bookmakers.map (opsOfBookSync parse ev)).flatten := by
    rw [List.map_map]
    congr 1
    apply List.map_congr_left
    intro bm _
    exact opsOfBookSync_prune parse ev bm
  show (if strTruthy ev.home_team = true ∧ strTruthy ev.away_team = true ∧
      strTruthy ev.commence_time = true then
      match parse (jsOrStr ev.commence_time "") with
      | none => [SyncOp.skipEvent]
      | some tc =>
          SyncOp.game ⟨ev.id, ev.sport_key, jsOrStr ev.home_team "",
            jsOrStr ev.away_team "", some tc, ev.completed,
            some ev.home_score, some ev.away_score⟩ ::
            ((ev.bookmakers.map (pruneBookSync ev)).map
              (opsOfBookSync parse (pruneEventSync ev))).flatten
    else [SyncOp.skipEvent])
    = opsOfEventSync parse ev
  have hswap : ∀ bm, opsOfBookSync parse (pruneEventSync ev) bm
      = opsOfBookSync parse ev bm := fun _ => rfl
  rw [opsOfEventSync]
  by_cases hguard : strTruthy ev.home_team = true ∧
      strTruthy ev.away_team = true ∧ strTruthy ev.commence_time = true
  · rw [if_pos hguard, if_pos hguard]
    cases parse (jsOrStr ev.commence_time "") with
    | none => rfl
    | some tc =>
      have : (ev.bookmakers.map (pruneBookSync ev)).map
          (opsOfBookSync parse (pruneEventSync ev))
          = (ev.bookmakers.map (pruneBookSync ev)).map
            (opsOfBookSync parse ev) := by
        apply List.map_congr_left
        intro bm _
        exact hswap bm
      rw [this, hbooks]
  · rw [if_neg hguard, if_neg hguard]

theorem sdioOps_prune (parse : String → Option Int) (evs : List RawEvent) :
    sdioOps parse (evs.map pruneEventSync) = sdioOps parse evs := by
  unfold sdioOps
  rw [List.map_map]
  congr 1
  apply List.map_congr_left
  intro ev _
  exact opsOfEventSync_prune parse ev

/-- The four legal outcome types of the schema comment. -/
def outcomeTypeOK (ty : String) : Prop :=
  ty = "home" ∨ ty = "away" ∨ ty = "over" ∨ ty = "under"

/-- Every stored odds row carries one of the four outcome types. -/
def storeTypesOK (s : Store) : Prop :=
  ∀ r ∈ s.oddsRows, outcomeTypeOK r.key.outcomeType

/-- Every quote operation in the list carries one of the four outcome
types. -/
def opsTypesOK (ops : List SyncOp) : Prop :=
  ∀ k p pt, SyncOp.quote k p pt ∈ ops → outcomeTypeOK k.outcomeType

theorem classifyOutcomeSync_types (mk : String) (n h a : Option String)
    (ty : String) (hc : classifyOutcomeSync mk n h a = some ty) :
    outcomeTypeOK ty := by
  unfold classifyOutcomeSync at hc
  dsimp only at hc
  repeat' split at hc
  all_goals simp_all [outcomeTypeOK]

theorem classifyOutcomeEspn_types (mk : String) (n h : Option String)
    (ty : String) (hc : classifyOutcomeEspn mk n h = some ty) :
    outcomeTypeOK ty := by
  unfold classifyOutcomeEspn at hc
  repeat' split at hc
  all_goals simp_all [outcomeTypeOK]

theorem opsOfMarketSync_typesOK (ev : RawEvent) (bmKey : String)
    (m : RawMarket) : opsTypesOK (opsOfMarketSync ev bmKey m) := by
  intro k p pt hop
  unfold opsOfMarketSync at hop
  rw [List.mem_filterMap] at hop
  obtain ⟨o, _, hmk⟩ := hop
  cases hc : classifyOutcomeSync m.key o.name ev.home_team ev.away_team with
  | none => rw [hc] at hmk; simp at hmk
  | some ty =>
    rw [hc] at hmk
    have hmk2 : some (SyncOp.quote ⟨ev.id, bmKey, m.key, ty⟩ o.price o.point)
        = some (SyncOp.quote k p pt) := hmk
    injection hmk2 with hmk3
    injection hmk3 with hk hp2 hpt2
    rw [← hk]
    exact classifyOutcomeSync_types m.key o.name ev.home_team ev.away_team
      ty hc

theorem opsOfBookSync_typesOK (parse : String → Option Int) (ev : RawEvent)
    (bm : RawBookmaker) : opsTypesOK (opsOfBookSync parse ev bm) := by
  intro k p pt hop
  unfold opsOfBookSync at hop
  split at hop
  · split at hop
    · simp at hop
    · rw [List.mem_cons] at hop
      rcases hop with h | hop
      · exact absurd h (by simp)
      · rw [List.mem_flatten] at hop
        obtain ⟨l, hl, hop⟩ := hop
        rw [List.mem_map] at hl
        obtain ⟨m, _, rfl⟩ := hl
        exact opsOfMarketSync_typesOK ev bm.key m k p pt hop
  · rw [List.mem_cons] at hop
    rcases hop with h | hop
    · exact absurd h (by simp)
    · rw [List.mem_flatten] at hop
      obtain ⟨l, hl, hop⟩ := hop
      rw [List.mem_map] at hl
      obtain ⟨m, _, rfl⟩ := hl
      exact opsOfMarketSync_typesOK ev bm.key m k p pt hop

theorem sdioOps_typesOK (parse : String → Option Int) (evs : List RawEvent) :
    opsTypesOK (sdioOps parse evs) := by
  intro k p pt hmem
  simp only [sdioOps, List.mem_flatten, List.mem_map] at hmem
  obtain ⟨l, ⟨ev, _, rfl⟩, hop⟩ := hmem
  unfold opsOfEventSync at hop
  split at hop
  · split at hop
    · simp at hop
    · rw [List.mem_cons] at hop
      rcases hop with h | hop
      · exact absurd h (by simp)
      · rw [List.mem_flatten] at hop
        obtain ⟨l2, hl2, hop⟩ := hop
        rw [List.mem_map] at hl2
        obtain ⟨bm, _, rfl⟩ := hl2
        exact opsOfBookSync_typesOK parse ev bm k p pt hop
  · simp at hop

theorem espnOps_typesOK (parse : String → Option Int) (evs : List RawEvent) :
    opsTypesOK (espnOps parse evs) := by
  intro k p pt hmem
  simp only [espnOps, List.mem_flatten, List.mem_map] at hmem
  obtain ⟨l, ⟨ev, _, rfl⟩, hop⟩ := hmem
  unfold opsOfEventEspn at hop
  split at hop
  · rw [List.mem_cons] at hop
    rcases hop with h | hop
    · exact absurd h (by simp)
    · rw [List.mem_flatten] at hop
      obtain ⟨l2, hl2, hop⟩ := hop
      rw [List.mem_map] at hl2
      obtain ⟨bm, _, rfl⟩ := hl2
      rw [List.mem_cons] at hop
      rcases hop with h | hop
      · exact absurd h (by simp)
      · rw [List.mem_flatten] at hop
        obtain ⟨l3, hl3, hop⟩ := hop
        rw [List.mem_map] at hl3
        obtain ⟨m, _, rfl⟩ := hl3
        rw [List.mem_filterMap] at hop
        obtain ⟨o, _, hmk⟩ := hop
        cases hc : classifyOutcomeEspn m.key o.name ev.home_team with
        | none => rw [hc] at hmk; simp at hmk
        | some ty =>
          rw [hc] at hmk
          have hmk2 : some (SyncOp.quote ⟨ev.id, bm.key, m.key, ty⟩ o.price
              (if truthyQ o.point = true then o.point else none))
              = some (SyncOp.quote k p pt) := hmk
          injection hmk2 with hmk3
          injection hmk3 with hk hp2 hpt2
          rw [← hk]
          exact classifyOutcomeEspn_types m.key o.name ev.home_team ty hc
  · simp at hop

theorem updateOddsRows_types (t : Int) (k : OddsKey) (p pt : Option ℚ) :
    ∀ (rows : List OddsRow) (r : OddsRow),
      r ∈ updateOddsRows t k p pt rows → r.key = k ∨ r ∈ rows := by
  intro rows
  induction rows with
  | nil => intro r hr; simp [updateOddsRows] at hr
  | cons x xs ih =>
    intro r hr
    unfold updateOddsRows at hr
    by_cases hx : x.key = k
    · rw [if_pos hx] at hr
      rcases List.mem_cons.mp hr with h | h
      · subst h; exact Or.inl rfl
      · exact Or.inr (List.mem_cons.mpr (Or.inr h))
    · rw [if_neg hx] at hr
      rcases List.mem_cons.mp hr with h | h
      · subst h; exact Or.inr (List.mem_cons.mpr (Or.inl rfl))
      · rcases ih r h with h2 | h2
        · exact Or.inl h2
        · exact Or.inr (List.mem_cons.mpr (Or.inr h2))

theorem applyOp_typesOK (t : Int) (s : Store) (op : SyncOp)
    (hs : storeTypesOK s)
    (hop : ∀ k p pt, op = SyncOp.quote k p pt → outcomeTypeOK k.outcomeType) :
    storeTypesOK (applyOp t s op) := by
  cases op with
  | game g => exact hs
  | book b => exact hs
  | skipEvent => exact hs
  | quote k p pt =>
    intro r hr
    have hk := hop k p pt rfl
    have hrows : (applyOp t s (SyncOp.quote k p pt)).oddsRows
        = (storeUpsertOdds t k p pt s).oddsRows := by
      simp only [applyOp, applyQuote]
      split
      · rfl
      · split
        · split <;> rfl
        · rfl
    rw [hrows] at hr
    cases hl : oddsLookup k s.oddsRows with
    | some prevRow =>
      simp only [storeUpsertOdds, hl] at hr
      rcases updateOddsRows_types t k p pt s.oddsRows r hr with h | h
      · rw [h]; exact hk
      · exact hs r h
    | none =>
      simp only [storeUpsertOdds, hl] at hr
      rw [List.mem_append] at hr
      rcases hr with h | h
      · exact hs r h
      · rw [List.mem_singleton] at h
        subst h
        exact hk

theorem applyOps_typesOK (t : Int) :
    ∀ (ops : List SyncOp) (s : Store), storeTypesOK s → opsTypesOK ops →
      storeTypesOK (applyOps t ops s) := by
  intro ops
  induction ops with
  | nil => intro s hs _; exact hs
  | cons op rest ih =>
    intro s hs hops
    rw [applyOps, List.foldl_cons]
    have h1 : storeTypesOK (applyOp t s op) :=
      applyOp_typesOK t s op hs fun k p pt he => by
        subst he; exact hops k p pt (List.mem_cons_self _ _)
    exact ih (applyOp t s op) h1 fun k p pt hmem =>
      hops k p pt (List.mem_cons.mpr (Or.inr hmem))

theorem espnMarketEntry_names (mk : EMarket) (data : EspnGame)
    (mqs : List EspnQuote) (m : RawMarket)
    (hme : espnMarketEntry mk data mqs = some m) :
    m.key = emarketKey mk ∧
      ∀ o ∈ m.outcomes, ∃ q : EspnQuote, o = espnOutcome mk data q := by
  unfold espnMarketEntry at hme
  cases mqs with
  | nil => simp at hme
  | cons r rs =>
    injection hme with h
    subst h
    refine ⟨rfl, ?_⟩
    intro o ho
    have ho2 : o ∈ (r :: rs).map (espnOutcome mk data) := ho
    rw [List.mem_map] at ho2
    obtain ⟨q, -, rfl⟩ := ho2
    exact ⟨q, rfl⟩

theorem transform_names (entries : List (String × EspnGame)) (sport : String) :
    ∀ ev ∈ transformEspnToDbFormat entries sport,
      ∀ bm ∈ ev.bookmakers, ∀ m ∈ bm.markets, ∀ o ∈ m.outcomes,
        (m.key = "totals" ∧ (o.name = some "Over" ∨ o.name = some "Under"))
        ∨ ((m.key = "h2h" ∨ m.key = "spreads")
            ∧ (o.name = ev.home_team ∨ o.name = ev.away_team)) := by
  intro ev hev bm hbm m hm o ho
  rw [transformEspnToDbFormat, List.mem_map] at hev
  obtain ⟨p, -, rfl⟩ := hev
  have hbm2 : bm ∈ (groupByBook p.2.quotes).filterMap (espnBookEntry p.2) := hbm
  rw [List.mem_filterMap] at hbm2
  obtain ⟨pr, -, hbe⟩ := hbm2
  obtain ⟨bname, bqs⟩ := pr
  unfold espnBookEntry at hbe
  cases bqs with
  | nil => simp at hbe
  | cons q0 qs =>
    dsimp only at hbe
    split at hbe
    · simp at hbe
    · injection hbe with hbe2
      subst hbe2
      have hm2 : m ∈ espnMarketsFor p.2 (q0 :: qs) := hm
      rw [espnMarketsFor, List.mem_filterMap] at hm2
      obtain ⟨pair, hpair, hme⟩ := hm2
      have hname : m.key = emarketKey pair.1 ∧
          ∀ o ∈ m.outcomes, ∃ q : EspnQuote, o = espnOutcome pair.1 p.2 q :=
        espnMarketEntry_names pair.1 p.2 pair.2 m hme
      obtain ⟨q, hq⟩ := hname.2 o ho
      subst hq
      simp only [List.mem_cons, List.not_mem_nil, or_false] at hpair
      rcases hpair with rfl | rfl | rfl
      · refine Or.inr ⟨Or.inl hname.1, ?_⟩
        by_cases ht : q.team = ETeam.home
        · exact Or.inl (by simp [espnOutcome, ht])
        · exact Or.inr (by simp [espnOutcome, ht])
      · refine Or.inr ⟨Or.inr hname.1, ?_⟩
        by_cases ht : q.team = ETeam.home
        · exact Or.inl (by simp [espnOutcome, ht])
        · exact Or.inr (by simp [espnOutcome, ht])
      · refine Or.inl ⟨hname.1, ?_⟩
        by_cases ht : q.team = ETeam.home
        · exact Or.inl (by simp [espnOutcome, ht])
        · exact Or.inr (by simp [espnOutcome, ht])

/-- C4: a market outcome whose name matches no classification rule is
dropped and never persisted with a guessed outcomeType, and every persisted
odds row carries one of the four outcomeType values "home", "away", "over",
"under".  Formally: pruning exactly the outcomes the SportsDataIO sync
classifier rejects leaves the emitted storage operations unchanged (rejected
outcomes contribute nothing); both sync routes preserve the invariant that
every stored odds row's outcomeType is one of the four values; and every
outcome reaching the ESPN route through `transformEspnToDbFormat` carries a
name matched by a classification rule (a team name for h2h/spreads,
Over/Under for totals), so the ESPN classifier's else-branches never fire on
an unmatched name. -/
theorem outcome_classification_four_values
    (parse : String → Option Int) (evs : List RawEvent)
    (entries : List (String × EspnGame)) (sport : String)
    (t1 t2 : Int) (s1 s2 : Store)
    (h1 : storeTypesOK s1) (h2 : storeTypesOK s2) :
    sdioOps parse (evs.map pruneEventSync) = sdioOps parse evs
    ∧ storeTypesOK (syncSdio parse evs t1 s1).store
    ∧ storeTypesOK
        (syncEspn parse (transformEspnToDbFormat entries sport) t2 s2).store
    ∧ ∀ ev ∈ transformEspnToDbFormat entries sport,
        ∀ bm ∈ ev.bookmakers, ∀ m ∈ bm.markets, ∀ o ∈ m.outcomes,
          (m.key = "totals" ∧ (o.name = some "Over" ∨ o.name = some "Under"))
          ∨ ((m.key = "h2h" ∨ m.key = "spreads")
              ∧ (o.name = ev.home_team ∨ o.name = ev.away_team)) := by
  refine ⟨sdioOps_prune parse evs, ?_, ?_, transform_names entries sport⟩
  · exact applyOps_typesOK t1 (sdioOps parse evs) s1 h1 (sdioOps_typesOK parse evs)
  · exact applyOps_typesOK t2 (espnOps parse (transformEspnToDbFormat entries sport))
      s2 h2 (espnOps_typesOK parse (transformEspnToDbFormat entries sport))

theorem outcome_classification_four_values_witness :
    storeTypesOK emptyStore
    ∧ (sdioOps c1Parse ([].map pruneEventSync) = sdioOps c1Parse []
    ∧ storeTypesOK (syncSdio c1Parse [] 0 emptyStore).store
    ∧ storeTypesOK
        (syncEspn c1Parse (transformEspnToDbFormat [] "NFL") 0 emptyStore).store
    ∧ ∀ ev ∈ transformEspnToDbFormat ([] : List (String × EspnGame)) "NFL",
        ∀ bm ∈ ev.bookmakers, ∀ m ∈ bm.markets, ∀ o ∈ m.outcomes,
          (m.key = "totals" ∧ (o.name = some "Over" ∨ o.name = some "Under"))
          ∨ ((m.key = "h2h" ∨ m.key = "spreads")
              ∧ (o.name = ev.home_team ∨ o.name = ev.away_team))) :=
  have h : storeTypesOK emptyStore := fun r hr => absurd hr (List.not_mem_nil r)
  ⟨h, outcome_classification_four_values c1Parse [] [] "NFL" 0 0
    emptyStore emptyStore h h⟩

/-! ## C2: idempotence of re-ingestion -/

/-- Timestamp-free content of an odds row: the second application refreshes
`lastUpdate` (`new Date()`), so row identity is compared on everything
else. -/
def projOdds (r : OddsRow) : Nat × OddsKey × Option ℚ × Option ℚ :=
  (r.id, r.key, r.price, r.point)

/-- Timestamp-free content of a games row. -/
def projGame (r : GameRow) :
    String × String × String × String × Option Int × Bool × Option Int × Option Int :=
  (r.id, r.sportId, r.homeTeam, r.awayTeam, r.commenceTime, r.completed,
    r.homeScore, r.awayScore)

/-- Timestamp-free content of a bookmakers row. -/
def projBook (r : BookRow) : String × String := (r.id, r.title)

/-- The persisted state up to refreshed timestamps: full row lists (ids and
order included) with the `lastUpdate*` columns dropped, and the movement
rows kept whole. -/
structure ProjStore where
  games : List (String × String × String × String × Option Int × Bool × Option Int × Option Int)
  books : List (String × String)
  odds : List (Nat × OddsKey × Option ℚ × Option ℚ)
  movements : List MovementRow
  nextId : Nat
deriving Repr

/-- Project a store to its timestamp-free content. -/
def projStore (s : Store) : ProjStore :=
  ⟨s.games.map projGame, s.books.map projBook, s.oddsRows.map projOdds,
    s.movements, s.nextId⟩

/-- Two storage operations are compatible when they do not target the same
conflict key with different content. -/
def compatibleB : SyncOp → SyncOp → Bool
  | .quote k p pt, .quote k2 p2 pt2 => decide (k = k2 → p = p2 ∧ pt = pt2)
  | .game g, .game g2 => decide (g.id = g2.id → g = g2)
  | .book b, .book b2 => decide (b.id = b2.id → b = b2)
  | _, _ => true

/-- A batch of operations is consistent when every pair of operations it
contains is compatible. -/
def consistentB : List SyncOp → Bool
  | [] => true
  | op :: rest => rest.all (compatibleB op) && consistentB rest

/-- Propositional form of batch consistency. -/
abbrev Consistent (ops : List SyncOp) : Prop := consistentB ops = true

/-- The stored games row carries the content of the game upsert: all plain
fields equal, and each provided score field already holds the provided
value. -/
def gameSat (g : GameData) (r : GameRow) : Prop :=
  r.id = g.id ∧ r.sportId = g.sportId ∧ r.homeTeam = g.homeTeam ∧
  r.awayTeam = g.awayTeam ∧ r.commenceTime = g.commenceTime ∧
  r.completed = g.completed ∧
  (∀ v, g.homeScore = some v → r.homeScore = v) ∧
  (∀ v, g.awayScore = some v → r.awayScore = v)

/-- A storage operation is satisfied by a store when re-applying it would
rewrite the targeted row with the content it already has. -/
def opSat (s : Store) : SyncOp → Prop
  | .game g => ∃ r, gameLookup g.id s.games = some r ∧ gameSat g r
  | .book b => ∃ r, bookLookup b.id s.books = some r ∧ r.id = b.id ∧
      r.title = b.title
  | .quote k p pt => ∃ r, oddsLookup k s.oddsRows = some r ∧ r.price = p ∧
      r.point = pt
  | .skipEvent => True

theorem oddsLookup_update_self (t : Int) (k : OddsKey) (p pt : Option ℚ) :
    ∀ (rows : List OddsRow) (r : OddsRow), oddsLookup k rows = some r →
      oddsLookup k (updateOddsRows t k p pt rows) = some ⟨r.id, k, p, pt, t⟩ := by
  intro rows
  induction rows with
  | nil => intro r h; simp [oddsLookup] at h
  | cons x xs ih =>
    intro r h
    rw [oddsLookup] at h
    by_cases hx : x.key = k
    · rw [if_pos hx] at h
      injection h with h
      subst h
      simp [updateOddsRows, hx, oddsLookup]
    · rw [if_neg hx] at h
      simp only [updateOddsRows, hx, if_false, reduceIte]
      rw [oddsLookup, if_neg hx]
      exact ih r h

theorem oddsLookup_update_other (t : Int) (k k2 : OddsKey) (p pt : Option ℚ)
    (hne : k2 ≠ k) :
    ∀ rows : List OddsRow,
      oddsLookup k2 (updateOddsRows t k p pt rows) = oddsLookup k2 rows := by
  intro rows
  induction rows with
  | nil => rfl
  | cons x xs ih =>
    by_cases hx : x.key = k
    · simp only [updateOddsRows, hx, reduceIte, oddsLookup]
      have h2 : ¬ k = k2 := fun h => hne h.symm
      have h3 : ¬ x.key = k2 := fun h => hne (h.symm.trans hx)
      simp [h2, h3]
    · simp only [updateOddsRows, hx, reduceIte, oddsLookup]
      by_cases hx2 : x.key = k2
      · rw [if_pos hx2, if_pos hx2]
      · rw [if_neg hx2, if_neg hx2]
        exact ih

theorem oddsLookup_append_some (k : OddsKey) (l : List OddsRow) :
    ∀ (rows : List OddsRow) (r : OddsRow), oddsLookup k rows = some r →
      oddsLookup k (rows ++ l) = some r := by
  intro rows
  induction rows with
  | nil => intro r h; simp [oddsLookup] at h
  | cons x xs ih =>
    intro r h
    rw [oddsLookup] at h
    rw [List.cons_append, oddsLookup]
    by_cases hx : x.key = k
    · rwa [if_pos hx] at h ⊢
    · rw [if_neg hx] at h ⊢
      exact ih r h

theorem oddsLookup_append_one (k : OddsKey) (x : OddsRow) (hx : x.key = k) :
    ∀ rows : List OddsRow, oddsLookup k rows = none →
      oddsLookup k (rows ++ [x]) = some x := by
  intro rows
  induction rows with
  | nil => intro _; simp [oddsLookup, hx]
  | cons y ys ih =>
    intro h
    rw [oddsLookup] at h
    rw [List.cons_append, oddsLookup]
    by_cases hy : y.key = k
    · rw [if_pos hy] at h; exact absurd h (by simp)
    · rw [if_neg hy] at h ⊢
      exact ih h

theorem updateOddsRows_proj (t : Int) (k : OddsKey) (p pt : Option ℚ) :
    ∀ (rows : List OddsRow) (r : OddsRow), oddsLookup k rows = some r →
      r.price = p → r.point = pt →
      (updateOddsRows t k p pt rows).map projOdds = rows.map projOdds := by
  intro rows
  induction rows with
  | nil => intro r h; simp [oddsLookup] at h
  | cons x xs ih =>
    intro r h hp hpt
    rw [oddsLookup] at h
    by_cases hx : x.key = k
    · rw [if_pos hx] at h
      injection h with h
      subst h
      simp [updateOddsRows, hx, projOdds, hp, hpt]
    · rw [if_neg hx] at h
      simp only [updateOddsRows, hx, reduceIte, List.map_cons]
      rw [ih r h hp hpt]

theorem updateOddsRows_length (t : Int) (k : OddsKey) (p pt : Option ℚ) :
    ∀ rows : List OddsRow,
      (updateOddsRows t k p pt rows).length = rows.length := by
  intro rows
  induction rows with
  | nil => rfl
  | cons x xs ih =>
    by_cases hx : x.key = k
    · simp [updateOddsRows, hx]
    · simp only [updateOddsRows, hx, reduceIte, List.length_cons]
      rw [ih]

theorem gameLookup_upsert_self (t : Int) (g : GameData) :
    ∀ (rows : List GameRow) (r : GameRow), gameLookup g.id rows = some r →
      gameLookup g.id (upsertGameRows t g rows) = some (gameMergeRow t g r) := by
  intro rows
  induction rows with
  | nil => intro r h; simp [gameLookup] at h
  | cons x xs ih =>
    intro r h
    rw [gameLookup] at h
    by_cases hx : x.id = g.id
    · rw [if_pos hx] at h
      injection h with h
      subst h
      simp [upsertGameRows, hx, gameLookup, gameMergeRow]
    · rw [if_neg hx] at h
      simp only [upsertGameRows, hx, reduceIte]
      rw [gameLookup, if_neg hx]
      exact ih r h

theorem gameLookup_upsert_none (t : Int) (g : GameData) :
    ∀ rows : List GameRow, gameLookup g.id rows = none →
      gameLookup g.id (upsertGameRows t g rows) = some (gameInsertRow t g) := by
  intro rows
  induction rows with
  | nil => intro _; simp [upsertGameRows, gameLookup, gameInsertRow]
  | cons x xs ih =>
    intro h
    rw [gameLookup] at h
    by_cases hx : x.id = g.id
    · rw [if_pos hx] at h; exact absurd h (by simp)
    · rw [if_neg hx] at h
      simp only [upsertGameRows, hx, reduceIte]
      rw [gameLookup, if_neg hx]
      exact ih h

theorem gameLookup_upsert_other (t : Int) (g : GameData) (i : String)
    (hne : i ≠ g.id) :
    ∀ rows : List GameRow,
      gameLookup i (upsertGameRows t g rows) = gameLookup i rows := by
  intro rows
  induction rows with
  | nil => simp [upsertGameRows, gameLookup, gameInsertRow,
      show ¬ g.id = i from fun h => hne h.symm]
  | cons x xs ih =>
    by_cases hx : x.id = g.id
    · simp only [upsertGameRows, hx, reduceIte, gameLookup]
      have hgi : ¬ g.id = i := fun h => hne h.symm
      simp [gameMergeRow, hgi]
    · simp only [upsertGameRows, hx, reduceIte, gameLookup]
      by_cases hx2 : x.id = i
      · rw [if_pos hx2, if_pos hx2]
      · rw [if_neg hx2, if_neg hx2]
        exact ih

theorem upsertGameRows_proj (t : Int) (g : GameData) :
    ∀ (rows : List GameRow) (r : GameRow), gameLookup g.id rows = some r →
      gameSat g r →
      (upsertGameRows t g rows).map projGame = rows.map projGame := by
  intro rows
  induction rows with
  | nil => intro r h; simp [gameLookup] at h
  | cons x xs ih =>
    intro r h hsat
    rw [gameLookup] at h
    by_cases hx : x.id = g.id
    · rw [if_pos hx] at h
      injection h with h
      subst h
      obtain ⟨h1, h2, h3, h4, h5, h6, h7, h8⟩ := hsat
      simp only [upsertGameRows, hx, reduceIte, List.map_cons]
      congr 1
      simp only [gameMergeRow, projGame, h1, h2, h3, h4, h5, h6]
      cases hsc : g.homeScore with
      | none =>
        cases hsc2 : g.awayScore with
        | none => simp
        | some w => simp [h8 w hsc2]
      | some v =>
        cases hsc2 : g.awayScore with
        | none => simp [h7 v hsc]
        | some w => simp [h7 v hsc, h8 w hsc2]
    · rw [if_neg hx] at h
      simp only [upsertGameRows, hx, reduceIte, List.map_cons]
      rw [ih r h hsat]

theorem bookLookup_upsert_self (t : Int) (b : BookData) :
    ∀ (rows : List BookRow) (r : BookRow), bookLookup b.id rows = some r →
      bookLookup b.id (upsertBookRows t b rows) = some (bookRowOf t b) := by
  intro rows
  induction rows with
  | nil => intro r h; simp [bookLookup] at h
  | cons x xs ih =>
    intro r h
    rw [bookLookup] at h
    by_cases hx : x.id = b.id
    · rw [if_pos hx] at h
      simp [upsertBookRows, hx, bookLookup, bookRowOf]
    · rw [if_neg hx] at h
      simp only [upsertBookRows, hx, reduceIte]
      rw [bookLookup, if_neg hx]
      exact ih r h

theorem bookLookup_upsert_none (t : Int) (b : BookData) :
    ∀ rows : List BookRow, bookLookup b.id rows = none →
      bookLookup b.id (upsertBookRows t b rows) = some (bookRowOf t b) := by
  intro rows
  induction rows with
  | nil => intro _; simp [upsertBookRows, bookLookup, bookRowOf]
  | cons x xs ih =>
    intro h
    rw [bookLookup] at h
    by_cases hx : x.id = b.id
    · rw [if_pos hx] at h; exact absurd h (by simp)
    · rw [if_neg hx] at h
      simp only [upsertBookRows, hx, reduceIte]
      rw [bookLookup, if_neg hx]
      exact ih h

theorem bookLookup_upsert_other (t : Int) (b : BookData) (i : String)
    (hne : i ≠ b.id) :
    ∀ rows : List BookRow,
      bookLookup i (upsertBookRows t b rows) = bookLookup i rows := by
  intro rows
  induction rows with
  | nil => simp [upsertBookRows, bookLookup, bookRowOf,
      show ¬ b.id = i from fun h => hne h.symm]
  | cons x xs ih =>
    by_cases hx : x.id = b.id
    · simp only [upsertBookRows, hx, reduceIte, bookLookup]
      have hbi : ¬ b.id = i := fun h => hne h.symm
      simp [bookRowOf, hbi]
    · simp only [upsertBookRows, hx, reduceIte, bookLookup]
      by_cases hx2 : x.id = i
      · rw [if_pos hx2, if_pos hx2]
      · rw [if_neg hx2, if_neg hx2]
        exact ih

theorem upsertBookRows_proj (t : Int) (b : BookData) :
    ∀ (rows : List BookRow) (r : BookRow), bookLookup b.id rows = some r →
      r.id = b.id → r.title = b.title →
      (upsertBookRows t b rows).map projBook = rows.map projBook := by
  intro rows
  induction rows with
  | nil => intro r h; simp [bookLookup] at h
  | cons x xs ih =>
    intro r h h1 h2
    rw [bookLookup] at h
    by_cases hx : x.id = b.id
    · rw [if_pos hx] at h
      injection h with h
      subst h
      simp only [upsertBookRows, hx, reduceIte, List.map_cons]
      congr 1
      simp [bookRowOf, projBook, h1, h2]
    · rw [if_neg hx] at h
      simp only [upsertBookRows, hx, reduceIte, List.map_cons]
      rw [ih r h h1 h2]

theorem applyQuote_games (t : Int) (k : OddsKey) (p pt : Option ℚ)
    (s : Store) : (applyQuote t k p pt s).games = s.games := by
  simp only [applyQuote, storeUpsertOdds]
  split
  · split <;> rfl
  · split
    · split
      · split <;> rfl
      · split <;> rfl
    · split <;> rfl

theorem applyQuote_books (t : Int) (k : OddsKey) (p pt : Option ℚ)
    (s : Store) : (applyQuote t k p pt s).books = s.books := by
  simp only [applyQuote, storeUpsertOdds]
  split
  · split <;> rfl
  · split
    · split
      · split <;> rfl
      · split <;> rfl
    · split <;> rfl

theorem applyQuote_oddsRows (t : Int) (k : OddsKey) (p pt : Option ℚ)
    (s : Store) :
    (applyQuote t k p pt s).oddsRows = (storeUpsertOdds t k p pt s).oddsRows := by
  simp only [applyQuote]
  split
  · rfl
  · split
    · split <;> rfl
    · rfl

/-- Re-applying a quote that the store already satisfies is a pure in-place
rewrite: the diff step sees an unchanged point and emits nothing. -/
theorem applyQuote_sat (t : Int) (k : OddsKey) (p pt : Option ℚ) (s : Store)
    (r : OddsRow) (hl : oddsLookup k s.oddsRows = some r) (hpt : r.point = pt) :
    applyQuote t k p pt s =
      { s with oddsRows := updateOddsRows t k p pt s.oddsRows } := by
  cases pt with
  | none => simp [applyQuote, storeUpsertOdds, hl, hpt]
  | some p2 => simp [applyQuote, storeUpsertOdds, hl, hpt]

theorem opSat_apply_self (t : Int) (s : Store) (op : SyncOp) :
    opSat (applyOp t s op) op := by
  cases op with
  | skipEvent => trivial
  | game g =>
    show opSat { s with games := upsertGameRows t g s.games } (.game g)
    cases hl : gameLookup g.id s.games with
    | some r =>
      refine ⟨gameMergeRow t g r, gameLookup_upsert_self t g s.games r hl, ?_⟩
      refine ⟨rfl, rfl, rfl, rfl, rfl, rfl, ?_, ?_⟩
      · intro v hv; simp [gameMergeRow, hv]
      · intro v hv; simp [gameMergeRow, hv]
    | none =>
      refine ⟨gameInsertRow t g, gameLookup_upsert_none t g s.games hl, ?_⟩
      refine ⟨rfl, rfl, rfl, rfl, rfl, rfl, ?_, ?_⟩
      · intro v hv; simp [gameInsertRow, hv]
      · intro v hv; simp [gameInsertRow, hv]
  | book b =>
    show opSat { s with books := upsertBookRows t b s.books } (.book b)
    cases hl : bookLookup b.id s.books with
    | some r =>
      exact ⟨bookRowOf t b, bookLookup_upsert_self t b s.books r hl, rfl, rfl⟩
    | none =>
      exact ⟨bookRowOf t b, bookLookup_upsert_none t b s.books hl, rfl, rfl⟩
  | quote k p pt =>
    show opSat (applyQuote t k p pt s) (.quote k p pt)
    have hrows := applyQuote_oddsRows t k p pt s
    cases hl : oddsLookup k s.oddsRows with
    | some r =>
      refine ⟨⟨r.id, k, p, pt, t⟩, ?_, rfl, rfl⟩
      rw [hrows]
      simp only [storeUpsertOdds, hl]
      exact oddsLookup_update_self t k p pt s.oddsRows r hl
    | none =>
      refine ⟨⟨s.nextId, k, p, pt, t⟩, ?_, rfl, rfl⟩
      rw [hrows]
      simp only [storeUpsertOdds, hl]
      exact oddsLookup_append_one k _ rfl s.oddsRows hl

theorem opSat_preserved (t : Int) (s : Store) (op op2 : SyncOp)
    (h : opSat s op) (h2 : opSat s op2) : opSat (applyOp t s op2) op := by
  cases op with
  | skipEvent => trivial
  | quote k p pt =>
    obtain ⟨r, hl, hp, hpt⟩ := h
    cases op2 with
    | skipEvent => exact ⟨r, hl, hp, hpt⟩
    | game g => exact ⟨r, hl, hp, hpt⟩
    | book b => exact ⟨r, hl, hp, hpt⟩
    | quote k2 p2 pt2 =>
      obtain ⟨r2, hl2, hp2, hpt2⟩ := h2
      have hrows : (applyOp t s (SyncOp.quote k2 p2 pt2)).oddsRows
          = updateOddsRows t k2 p2 pt2 s.oddsRows := by
        have heq := applyQuote_sat t k2 p2 pt2 s r2 hl2 hpt2
        show (applyQuote t k2 p2 pt2 s).oddsRows = _
        rw [heq]
      by_cases hk : k = k2
      · subst hk
        rw [hl] at hl2
        injection hl2 with hr2
        subst hr2
        refine ⟨⟨r.id, k, p2, pt2, t⟩, ?_, ?_, ?_⟩
        · rw [hrows]
          exact oddsLookup_update_self t k p2 pt2 s.oddsRows r hl
        · exact hp2.symm.trans hp
        · exact hpt2.symm.trans hpt
      · refine ⟨r, ?_, hp, hpt⟩
        rw [hrows]
        rw [oddsLookup_update_other t k2 k p2 pt2 hk]
        exact hl
  | game g =>
    obtain ⟨r, hl, hsat⟩ := h
    cases op2 with
    | skipEvent => exact ⟨r, hl, hsat⟩
    | book b => exact ⟨r, hl, hsat⟩
    | quote k2 p2 pt2 =>
      refine ⟨r, ?_, hsat⟩
      show gameLookup g.id (applyQuote t k2 p2 pt2 s).games = some r
      rw [applyQuote_games]
      exact hl
    | game g2 =>
      obtain ⟨r2, hl2, hsat2⟩ := h2
      by_cases hid : g2.id = g.id
      · rw [hid, hl] at hl2
        injection hl2 with hr2
        subst hr2
        refine ⟨gameMergeRow t g2 r, ?_, ?_⟩
        · show gameLookup g.id (upsertGameRows t g2 s.games) = _
          rw [← hid]
          exact gameLookup_upsert_self t g2 s.games r (by rw [hid]; exact hl)
        · obtain ⟨a1, a2, a3, a4, a5, a6, a7, a8⟩ := hsat
          obtain ⟨b1, b2, b3, b4, b5, b6, b7, b8⟩ := hsat2
          refine ⟨hid, b2.symm.trans a2, b3.symm.trans a3,
            b4.symm.trans a4, b5.symm.trans a5, b6.symm.trans a6, ?_, ?_⟩
          · intro v hv
            show g2.homeScore.getD r.homeScore = v
            cases hw : g2.homeScore with
            | none => exact a7 v hv
            | some w => exact (b7 w hw).symm.trans (a7 v hv)
          · intro v hv
            show g2.awayScore.getD r.awayScore = v
            cases hw : g2.awayScore with
            | none => exact a8 v hv
            | some w => exact (b8 w hw).symm.trans (a8 v hv)
      · refine ⟨r, ?_, hsat⟩
        show gameLookup g.id (upsertGameRows t g2 s.games) = some r
        rw [gameLookup_upsert_other t g2 g.id (fun h2 => hid (h2.symm))]
        exact hl
  | book b =>
    obtain ⟨r, hl, h1, h2b⟩ := h
    cases op2 with
    | skipEvent => exact ⟨r, hl, h1, h2b⟩
    | game g => exact ⟨r, hl, h1, h2b⟩
    | quote k2 p2 pt2 =>
      refine ⟨r, ?_, h1, h2b⟩
      show bookLookup b.id (applyQuote t k2 p2 pt2 s).books = some r
      rw [applyQuote_books]
      exact hl
    | book b2 =>
      obtain ⟨r2, hl2, c1, c2⟩ := h2
      by_cases hid : b2.id = b.id
      · rw [hid, hl] at hl2
        injection hl2 with hr2
        subst hr2
        refine ⟨bookRowOf t b2, ?_, hid, c2.symm.trans h2b⟩
        show bookLookup b.id (upsertBookRows t b2 s.books) = _
        rw [← hid]
        exact bookLookup_upsert_self t b2 s.books r (by rw [hid]; exact hl)
      · refine ⟨r, ?_, h1, h2b⟩
        show bookLookup b.id (upsertBookRows t b2 s.books) = some r
        rw [bookLookup_upsert_other t b2 b.id (fun h3 => hid (h3.symm))]
        exact hl

theorem opSat_apply_compat (t : Int) (s : Store) (op op2 : SyncOp)
    (hc : compatibleB op op2 = true) (h : opSat s op) :
    opSat (applyOp t s op2) op := by
  cases op with
  | skipEvent => trivial
  | quote k p pt =>
    obtain ⟨r, hl, hp, hpt⟩ := h
    cases op2 with
    | skipEvent => exact ⟨r, hl, hp, hpt⟩
    | game g => exact ⟨r, hl, hp, hpt⟩
    | book b => exact ⟨r, hl, hp, hpt⟩
    | quote k2 p2 pt2 =>
      have hcc : k = k2 → p = p2 ∧ pt = pt2 := of_decide_eq_true hc
      by_cases hk : k = k2
      · obtain ⟨hpp, hppt⟩ := hcc hk
        subst hk
        subst hpp
        subst hppt
        exact opSat_apply_self t s (SyncOp.quote k p pt)
      · refine ⟨r, ?_, hp, hpt⟩
        show oddsLookup k (applyQuote t k2 p2 pt2 s).oddsRows = some r
        rw [applyQuote_oddsRows]
        cases hl2 : oddsLookup k2 s.oddsRows with
        | some r2 =>
          simp only [storeUpsertOdds, hl2]
          rw [oddsLookup_update_other t k2 k p2 pt2 hk]
          exact hl
        | none =>
          simp only [storeUpsertOdds, hl2]
          exact oddsLookup_append_some k _ s.oddsRows r hl
  | game g =>
    obtain ⟨r, hl, hsat⟩ := h
    cases op2 with
    | skipEvent => exact ⟨r, hl, hsat⟩
    | book b => exact ⟨r, hl, hsat⟩
    | quote k2 p2 pt2 =>
      refine ⟨r, ?_, hsat⟩
      show gameLookup g.id (applyQuote t k2 p2 pt2 s).games = some r
      rw [applyQuote_games]
      exact hl
    | game g2 =>
      have hcc : g.id = g2.id → g = g2 := of_decide_eq_true hc
      by_cases hid : g.id = g2.id
      · have hgg := hcc hid
        subst hgg
        exact opSat_apply_self t s (SyncOp.game g)
      · refine ⟨r, ?_, hsat⟩
        show gameLookup g.id (upsertGameRows t g2 s.games) = some r
        rw [gameLookup_upsert_other t g2 g.id hid]
        exact hl
  | book b =>
    obtain ⟨r, hl, h1, h2b⟩ := h
    cases op2 with
    | skipEvent => exact ⟨r, hl, h1, h2b⟩
    | game g => exact ⟨r, hl, h1, h2b⟩
    | quote k2 p2 pt2 =>
      refine ⟨r, ?_, h1, h2b⟩
      show bookLookup b.id (applyQuote t k2 p2 pt2 s).books = some r
      rw [applyQuote_books]
      exact hl
    | book b2 =>
      have hcc : b.id = b2.id → b = b2 := of_decide_eq_true hc
      by_cases hid : b.id = b2.id
      · have hbb := hcc hid
        subst hbb
        exact opSat_apply_self t s (SyncOp.book b)
      · refine ⟨r, ?_, h1, h2b⟩
        show bookLookup b.id (upsertBookRows t b2 s.books) = some r
        rw [bookLookup_upsert_other t b2 b.id hid]
        exact hl

theorem projStore_applyOp (t : Int) (s : Store) (op : SyncOp)
    (h : opSat s op) : projStore (applyOp t s op) = projStore s := by
  cases op with
  | skipEvent => rfl
  | quote k p pt =>
    obtain ⟨r, hl, hp, hpt⟩ := h
    show projStore (applyQuote t k p pt s) = projStore s
    rw [applyQuote_sat t k p pt s r hl hpt]
    simp only [projStore, ProjStore.mk.injEq, true_and, and_true]
    exact updateOddsRows_proj t k p pt s.oddsRows r hl hp hpt
  | game g =>
    obtain ⟨r, hl, hsat⟩ := h
    show projStore { s with games := upsertGameRows t g s.games } = projStore s
    simp only [projStore, ProjStore.mk.injEq, true_and, and_true]
    exact upsertGameRows_proj t g s.games r hl hsat
  | book b =>
    obtain ⟨r, hl, h1, h2b⟩ := h
    show projStore { s with books := upsertBookRows t b s.books } = projStore s
    simp only [projStore, ProjStore.mk.injEq, true_and, and_true]
    exact upsertBookRows_proj t b s.books r hl h1 h2b

theorem opSat_applyOps_compat (t : Int) (op : SyncOp) :
    ∀ (rest : List SyncOp) (s : Store),
      (∀ b ∈ rest, compatibleB op b = true) → opSat s op →
      opSat (applyOps t rest s) op := by
  intro rest
  induction rest with
  | nil => intro s _ h; exact h
  | cons b bs ih =>
    intro s hall h
    rw [applyOps, List.foldl_cons]
    exact ih (applyOp t s b)
      (fun x hx => hall x (List.mem_cons.mpr (Or.inr hx)))
      (opSat_apply_compat t s op b (hall b (List.mem_cons_self _ _)) h)

theorem allSat_after_pass (t : Int) :
    ∀ (ops : List SyncOp) (s : Store), Consistent ops →
      ∀ op ∈ ops, opSat (applyOps t ops s) op := by
  intro ops
  induction ops with
  | nil => intro s _ op hop; exact absurd hop (List.not_mem_nil op)
  | cons op rest ih =>
    intro s hc op2 hop2
    have hc2 : (rest.all (compatibleB op) && consistentB rest) = true := hc
    rw [Bool.and_eq_true] at hc2
    have hall : ∀ b ∈ rest, compatibleB op b = true :=
      fun b hb => (List.all_eq_true.mp hc2.1) b hb
    rw [applyOps, List.foldl_cons]
    rcases List.mem_cons.mp hop2 with heq | hmem
    · subst heq
      exact opSat_applyOps_compat t op2 rest (applyOp t s op2) hall
        (opSat_apply_self t s op2)
    · exact ih (applyOp t s op) hc2.2 op2 hmem

theorem projStore_applyOps_sat (t : Int) :
    ∀ (ops : List SyncOp) (s : Store), (∀ op ∈ ops, opSat s op) →
      projStore (applyOps t ops s) = projStore s := by
  intro ops
  induction ops with
  | nil => intro s _; rfl
  | cons op rest ih =>
    intro s hall
    rw [applyOps, List.foldl_cons]
    have h := hall op (List.mem_cons_self _ _)
    have hrest : ∀ op2 ∈ rest, opSat (applyOp t s op) op2 :=
      fun op2 hop2 =>
        opSat_preserved t s op2 op (hall op2 (List.mem_cons.mpr (Or.inr hop2))) h
    calc projStore (applyOps t rest (applyOp t s op))
        = projStore (applyOp t s op) := ih (applyOp t s op) hrest
      _ = projStore s := projStore_applyOp t s op h

/-- A quote key already has a stored row. -/
def keyPresent (k : OddsKey) (s : Store) : Prop :=
  (oddsLookup k s.oddsRows).isSome = true

theorem keyPresent_applyOp (t : Int) (s : Store) (op : SyncOp) (k : OddsKey)
    (h : keyPresent k s) : keyPresent k (applyOp t s op) := by
  cases op with
  | skipEvent => exact h
  | game g => exact h
  | book b => exact h
  | quote k2 p2 pt2 =>
    show (oddsLookup k (applyQuote t k2 p2 pt2 s).oddsRows).isSome = true
    rw [applyQuote_oddsRows]
    cases hl2 : oddsLookup k2 s.oddsRows with
    | some r2 =>
      simp only [storeUpsertOdds, hl2]
      by_cases hk : k = k2
      · subst hk
        rw [oddsLookup_update_self t k p2 pt2 s.oddsRows r2 hl2]
        rfl
      · rw [oddsLookup_update_other t k2 k p2 pt2 hk]
        exact h
    | none =>
      simp only [storeUpsertOdds, hl2]
      obtain ⟨r, hr⟩ := Option.isSome_iff_exists.mp h
      rw [oddsLookup_append_some k _ s.oddsRows r hr]
      rfl

theorem keyPresent_apply_self (t : Int) (s : Store) (k : OddsKey)
    (p pt : Option ℚ) : keyPresent k (applyOp t s (SyncOp.quote k p pt)) := by
  obtain ⟨r, hr, -, -⟩ := opSat_apply_self t s (SyncOp.quote k p pt)
  show (oddsLookup k _).isSome = true
  rw [hr]
  rfl

theorem keyPresent_applyOps (t : Int) :
    ∀ (ops : List SyncOp) (s : Store) (k : OddsKey), keyPresent k s →
      keyPresent k (applyOps t ops s) := by
  intro ops
  induction ops with
  | nil => intro s k h; exact h
  | cons op rest ih =>
    intro s k h
    rw [applyOps, List.foldl_cons]
    exact ih (applyOp t s op) k (keyPresent_applyOp t s op k h)

theorem allKeys_present_after_pass (t : Int) :
    ∀ (ops : List SyncOp) (s : Store) (k : OddsKey) (p pt : Option ℚ),
      SyncOp.quote k p pt ∈ ops → keyPresent k (applyOps t ops s) := by
  intro ops
  induction ops with
  | nil => intro s k p pt h; exact absurd h (List.not_mem_nil _)
  | cons op rest ih =>
    intro s k p pt h
    rw [applyOps, List.foldl_cons]
    rcases List.mem_cons.mp h with heq | hmem
    · subst heq
      exact keyPresent_applyOps t rest (applyOp t s (SyncOp.quote k p pt)) k
        (keyPresent_apply_self t s k p pt)
    · exact ih (applyOp t s op) k p pt hmem

theorem oddsLen_applyOps_present (t : Int) :
    ∀ (ops : List SyncOp) (s : Store),
      (∀ k p pt, SyncOp.quote k p pt ∈ ops → keyPresent k s) →
      (applyOps t ops s).oddsRows.length = s.oddsRows.length := by
  intro ops
  induction ops with
  | nil => intro s _; rfl
  | cons op rest ih =>
    intro s hall
    rw [applyOps, List.foldl_cons]
    have hstep : (applyOp t s op).oddsRows.length = s.oddsRows.length := by
      cases op with
      | skipEvent => rfl
      | game g => rfl
      | book b => rfl
      | quote k p pt =>
        show (applyQuote t k p pt s).oddsRows.length = _
        rw [applyQuote_oddsRows]
        have hk := hall k p pt (List.mem_cons_self _ _)
        obtain ⟨r, hr⟩ := Option.isSome_iff_exists.mp hk
        simp only [storeUpsertOdds, hr]
        exact updateOddsRows_length t k p pt s.oddsRows
    have hrest : ∀ k p pt, SyncOp.quote k p pt ∈ rest →
        keyPresent k (applyOp t s op) :=
      fun k p pt hm => keyPresent_applyOp t s op k
        (hall k p pt (List.mem_cons.mpr (Or.inr hm)))
    have h2 := ih (applyOp t s op) hrest
    rw [applyOps] at h2
    rw [h2, hstep]

/-- C2: re-applying the same ingestion batch.  Unconditionally the second
application appends no odds row: every conflict key already has a stored row
and the upsert rewrites it in place, so the persisted row count is
unchanged.  When the batch is additionally intra-batch consistent — no two
of its operations target the same conflict key with different content — the
second application leaves the whole persisted state unchanged up to
refreshed timestamps: the same games, bookmakers and odds rows (ids, order
and values included) and zero additional line-movement rows. -/
theorem ingestion_upsert_idempotent
    (parse : String → Option Int) (evs : List RawEvent) (t1 t2 : Int)
    (s : Store) :
    (syncSdio parse evs t2
        (syncSdio parse evs t1 s).store).store.oddsRows.length
      = (syncSdio parse evs t1 s).store.oddsRows.length
    ∧ (Consistent (sdioOps parse evs) →
        projStore (syncSdio parse evs t2
            (syncSdio parse evs t1 s).store).store
          = projStore (syncSdio parse evs t1 s).store) := by
  constructor
  · exact oddsLen_applyOps_present t2 (sdioOps parse evs)
      (applyOps t1 (sdioOps parse evs) s)
      (fun k p pt hm =>
        allKeys_present_after_pass t1 (sdioOps parse evs) s k p pt hm)
  · intro hc
    exact projStore_applyOps_sat t2 (sdioOps parse evs)
      (applyOps t1 (sdioOps parse evs) s)
      (fun op hop => allSat_after_pass t1 (sdioOps parse evs) s hc op hop)

/-- A well-formed, intra-batch consistent event: one bookmaker, one spreads
market, one outcome naming the home team. -/
def c2GoodEv : RawEvent :=
  ⟨"g1", "NFL", some "KC", some "LV", some "D", false, none, none,
    [⟨"dk", "DK", none,
      [⟨"spreads", none, [⟨some "KC", some (-110), some 1⟩]⟩]⟩]⟩

/-- An event whose single market carries two outcomes that collide on the
conflict key with different points. -/
def c2DupEv : RawEvent :=
  ⟨"g1", "NFL", some "KC", some "LV", some "D", false, none, none,
    [⟨"dk", "DK", none,
      [⟨"spreads", none,
        [⟨some "KC", some (-110), some 1⟩,
         ⟨some "KC", some (-110), some 2⟩]⟩]⟩]⟩

/-- Witness for `ingestion_upsert_idempotent` at a concrete consistent
batch: the second sync leaves the projected store unchanged. -/
theorem ingestion_upsert_idempotent_witness :
    Consistent (sdioOps c1Parse [c2GoodEv])
    ∧ projStore (syncSdio c1Parse [c2GoodEv] 300
          (syncSdio c1Parse [c2GoodEv] 200 emptyStore).store).store
        = projStore (syncSdio c1Parse [c2GoodEv] 200 emptyStore).store :=
  ⟨by decide,
    (ingestion_upsert_idempotent c1Parse [c2GoodEv] 200 300 emptyStore).2
      (by decide)⟩

/-- Counterexample to claim C2 as stated: a batch in which two outcomes of
one market collide on the conflict key with points 1 and 2.  The first sync
records one movement; re-applying the identical batch records two more
(2 to 1 and back), so the second application is not movement-free. -/
theorem second_ingestion_emits_movements_counterexample :
    (syncSdio c1Parse [c2DupEv] 200 emptyStore).store.movements.length = 1
    ∧ (syncSdio c1Parse [c2DupEv] 300
        (syncSdio c1Parse [c2DupEv] 200 emptyStore).store).store.movements.length
      = 3 := by
  decide
